import Mathlib

/- Verification development for the test6-nn feedforward neural-network
trainer (src/test6-nn/src/main.rs).  Scalars are modelled as exact
rationals.  The external collaborators that are not part of this
repository snapshot (the `common` linear-algebra crate, the sigmoid
library and its square-root helper) are modelled from the spec; where a
numeric collaborator is a transcendental real function (sigmoid, square
root) it is passed as an explicit function parameter, so every theorem
below holds for any instantiation of that collaborator. -/

namespace Test6

/-- Modelled from the spec: `common::linalg::ColumnVector`, a flat sequence
of scalars. -/
abbrev ColumnVector := List ℚ

/-- Modelled from the spec: `common::linalg::Matrix`, a dense matrix stored
as a row-major flat data sequence together with its shape. -/
structure Matrix where
  rows : ℕ
  columns : ℕ
  data : List ℚ
  deriving DecidableEq

/-- Modelled from the spec: dot product of two scalar sequences. -/
def dot (a b : List ℚ) : ℚ := (List.zipWith (fun x y => x * y) a b).sum

/-- Modelled from the spec: row `i` of a row-major matrix. -/
def Matrix.row (m : Matrix) (i : ℕ) : List ℚ :=
  (m.data.drop (i * m.columns)).take m.columns

/-- Modelled from the spec: matrix-by-vector multiplication
(`Matrix::mult_vector`). -/
def Matrix.mult_vector (m : Matrix) (v : ColumnVector) : ColumnVector :=
  (List.range m.rows).map (fun i => dot (m.row i) v)

/-- Modelled from the spec: matrix transpose (`Matrix::transpose`). -/
def Matrix.transpose (m : Matrix) : Matrix :=
  { rows := m.columns
    columns := m.rows
    data := (List.range m.columns).map
        (fun i => (List.range m.rows).map (fun j => m.data.getD (j * m.columns + i) 0))
      |>.flatten }

/-- Modelled from the spec: elementwise matrix addition
(`Matrix::add_in_place`); the receiver keeps its shape. -/
def Matrix.add (m other : Matrix) : Matrix :=
  { m with data := List.zipWith (fun x y => x + y) m.data other.data }

/-- Modelled from the spec: elementwise matrix subtraction
(`Matrix::subtract_in_place`); the receiver keeps its shape. -/
def Matrix.subtract (m other : Matrix) : Matrix :=
  { m with data := List.zipWith (fun x y => x - y) m.data other.data }

/-- Modelled from the spec: in-place scalar multiplication
(`Matrix::multiply_by_scalar_in_place`). -/
def Matrix.multiply_by_scalar (m : Matrix) (c : ℚ) : Matrix :=
  { m with data := m.data.map (fun x => x * c) }

/-- Modelled from the spec: in-place scalar division
(`Matrix::divide_by_scalar_in_place`). -/
def Matrix.divide_by_scalar (m : Matrix) (c : ℚ) : Matrix :=
  { m with data := m.data.map (fun x => x / c) }

/-- Modelled from the spec: `Matrix::new_zero_matrix`. -/
def Matrix.new_zero_matrix (r c : ℕ) : Matrix :=
  { rows := r, columns := c, data := List.replicate (r * c) 0 }

/-- Modelled from the spec: elementwise vector addition
(`ColumnVector::add` / `plus_in_place`). -/
def ColumnVector.add (a b : ColumnVector) : ColumnVector :=
  List.zipWith (fun x y => x + y) a b

/-- Modelled from the spec: elementwise vector subtraction
(`ColumnVector::minus` / `minus_in_place`). -/
def ColumnVector.minus (a b : ColumnVector) : ColumnVector :=
  List.zipWith (fun x y => x - y) a b

/-- Modelled from the spec: elementwise (Hadamard) product
(`ColumnVector::hadamard_product_in_place`). -/
def ColumnVector.hadamard_product (a b : ColumnVector) : ColumnVector :=
  List.zipWith (fun x y => x * y) a b

/-- Modelled from the spec: `ColumnVector::multiply_by_scalar_in_place`. -/
def ColumnVector.multiply_by_scalar (a : ColumnVector) (c : ℚ) : ColumnVector :=
  a.map (fun x => x * c)

/-- Modelled from the spec: `ColumnVector::divide_by_scalar_in_place`. -/
def ColumnVector.divide_by_scalar (a : ColumnVector) (c : ℚ) : ColumnVector :=
  a.map (fun x => x / c)

/-- Modelled from the spec: `ColumnVector::new_zero_vector`. -/
def ColumnVector.new_zero_vector (n : ℕ) : ColumnVector := List.replicate n 0

/-- Modelled from the spec: outer product of a column vector with a row
vector (`ColumnVector::mult_matrix` applied to a transposed column vector),
producing a `len col × len row` matrix in row-major order. -/
def ColumnVector.mult_matrix (col row : ColumnVector) : Matrix :=
  { rows := col.length
    columns := row.length
    data := (col.map (fun x => row.map (fun y => x * y))).flatten }

/-- Modelled from the spec: `common::linalg::square`. -/
def square (x : ℚ) : ℚ := x * x

/-- Modelled from the spec: Euclidean length of a scalar sequence
(`common::linalg::euclidian_length`); the square-root collaborator is the
explicit parameter `sqrt`. -/
def euclidian_length (sqrt : ℚ → ℚ) (a : List ℚ) : ℚ :=
  sqrt ((a.map square).sum)

/-- Modelled from the spec: Euclidean distance between two scalar sequences
(`common::linalg::euclidian_distance`); the square-root collaborator is the
explicit parameter `sqrt`. -/
def euclidian_distance (sqrt : ℚ → ℚ) (a b : List ℚ) : ℚ :=
  sqrt (((List.zipWith (fun x y => x - y) a b).map square).sum)

/-- Modelled from the spec: `common::sigmoid::sigmoid_vector`, elementwise
application of the sigmoid collaborator `sg`. -/
def sigmoid_vector (sg : ℚ → ℚ) (v : ColumnVector) : ColumnVector := v.map sg

/-- Modelled from the spec: `common::sigmoid::sigmoid_prime_vector`;
the spec fixes the derivative as sigmoid(z) * (1 - sigmoid(z)), evaluated
through the sigmoid collaborator `sg`. -/
def sigmoid_prime_vector (sg : ℚ → ℚ) (v : ColumnVector) : ColumnVector :=
  v.map (fun t => sg t * (1 - sg t))

/-- A training example: `TrainingDataPoint` from the source. -/
structure TrainingDataPoint where
  input_v : ColumnVector
  desired_output_v : ColumnVector
  deriving DecidableEq

/-- Captured per-layer forward-pass values: `FeedForwardIntermediates`
from the source.  The source fills the layer-0 z vector with NaN as a
sentinel; NaN does not exist in exact rationals, so the sentinel is a
zero-filled vector of the same length (it is never read). -/
structure FeedForwardIntermediates where
  z_vector : ColumnVector
  activations_vector : ColumnVector
  deriving DecidableEq

/-- Training-check configuration flags: `CheckOptions` from the source. -/
structure CheckOptions where
  gradient_checking : Bool
  cost_decreasing_check : Bool
  deriving DecidableEq

/-- `CheckOptions::no_checks` from the source. -/
def CheckOptions.no_checks : CheckOptions :=
  { gradient_checking := false, cost_decreasing_check := false }

/-- `CheckOptions::all_checks` from the source. -/
def CheckOptions.all_checks : CheckOptions :=
  { gradient_checking := true, cost_decreasing_check := true }

/-- `GRADIENT_CHECK_EPSILON` from the source (1e-4, exact). -/
def GRADIENT_CHECK_EPSILON : ℚ := 1 / 10000

/-- `GRADIENT_CHECK_TWICE_EPSILON` from the source. -/
def GRADIENT_CHECK_TWICE_EPSILON : ℚ := 2 * GRADIENT_CHECK_EPSILON

/-- `GRADIENT_CHECK_EPSILON_SQUARED` from the source. -/
def GRADIENT_CHECK_EPSILON_SQUARED : ℚ :=
  GRADIENT_CHECK_EPSILON * GRADIENT_CHECK_EPSILON

/-- The free function `z` from the source: weighted sum
`weight_matrix * input + bias`. -/
def z (weight_matrix : Matrix) (bias_v input_v : ColumnVector) : ColumnVector :=
  ColumnVector.add (weight_matrix.mult_vector input_v) bias_v

/-- The network: `SimpleNeuralNetwork` from the source. -/
structure SimpleNeuralNetwork where
  sizes : List ℕ
  weights : List Matrix
  biases : List ColumnVector
  deriving DecidableEq

namespace SimpleNeuralNetwork

/-- `SimpleNeuralNetwork::num_layers` from the source. -/
def num_layers (nn : SimpleNeuralNetwork) : ℕ := nn.sizes.length

/-- `SimpleNeuralNetwork::new` from the source.  The random-normal
initializer is an external collaborator; it is modelled from the spec as an
arbitrary sample oracle `sample kind l j` (kind 0 for biases, 1 for
weights), since only the produced shapes matter: one bias vector of length
`sizes[i]` and one `sizes[l] × sizes[l-1]` weight matrix per layer
`1 ≤ l ≤ L-1`. -/
def new (sample : ℕ → ℕ → ℕ → ℚ) (sizes : List ℕ) : SimpleNeuralNetwork :=
  { sizes := sizes
    biases := (List.range' 1 (sizes.length - 1)).map
      (fun i => (List.range (sizes.getD i 0)).map (fun j => sample 0 i j))
    weights := (List.range' 1 (sizes.length - 1)).map
      (fun l => { rows := sizes.getD l 0
                  columns := sizes.getD (l - 1) 0
                  data := (List.range (sizes.getD l 0 * sizes.getD (l - 1) 0)).map
                    (fun j => sample 1 l j) }) }

end SimpleNeuralNetwork

/-- `quadratic_cost` from the source.  The source panics when the two
vectors have different lengths; the panic is modelled as `none`. -/
def quadratic_cost (desired_v actual_v : ColumnVector) : Option ℚ :=
  if desired_v.length ≠ actual_v.length then none
  else some ((((List.zipWith (fun e a => e - a) desired_v actual_v).map square).sum) / 2)

/-- A default matrix used for the modelled lookups. -/
def Mdefault : Matrix := Matrix.new_zero_matrix 0 0

/-- A default `FeedForwardIntermediates` entry used for the modelled
lookups. -/
def FFIdefault : FeedForwardIntermediates := { z_vector := [], activations_vector := [] }

/-- The structural well-formedness invariant of a network, as stated by the
spec: as many weight matrices as bias vectors, one per non-input layer, the
layer-`l` weight matrix of shape `sizes[l] × sizes[l-1]` (with a full
row-major data sequence) and the layer-`l` bias vector of length
`sizes[l]`. -/
def Wellformed (nn : SimpleNeuralNetwork) : Prop :=
  nn.weights.length = nn.sizes.length - 1 ∧
  nn.biases.length = nn.sizes.length - 1 ∧
  (∀ i, i < nn.sizes.length - 1 →
    (nn.weights.getD i Mdefault).rows = nn.sizes.getD (i + 1) 0 ∧
    (nn.weights.getD i Mdefault).columns = nn.sizes.getD i 0 ∧
    (nn.weights.getD i Mdefault).data.length =
      nn.sizes.getD (i + 1) 0 * nn.sizes.getD i 0 ∧
    (nn.biases.getD i []).length = nn.sizes.getD (i + 1) 0)

instance (nn : SimpleNeuralNetwork) : Decidable (Wellformed nn) := by
  unfold Wellformed
  exact instDecidableAnd

/-- One inter-layer step list for a network: its weight matrices zipped
with its bias vectors.  The source iterates a step index over
`0 .. num_layers - 1`, indexing `weights[i]` and `biases[i]`; under the
structural invariant (both sequences have exactly `num_layers - 1`
entries, enforced at construction) this is the same iteration. -/
def SimpleNeuralNetwork.steps (nn : SimpleNeuralNetwork) : List (Matrix × ColumnVector) :=
  nn.weights.zip nn.biases

/-- The loop body of `SimpleNeuralNetwork::feed_forward`: weighted sum then
elementwise sigmoid, folded over the inter-layer steps. -/
def feed_forward_steps (sg : ℚ → ℚ) :
    List (Matrix × ColumnVector) → ColumnVector → ColumnVector
  | [], a => a
  | (w, b) :: rest, a => feed_forward_steps sg rest (sigmoid_vector sg (z w b a))

/-- `SimpleNeuralNetwork::feed_forward` from the source. -/
def SimpleNeuralNetwork.feed_forward (sg : ℚ → ℚ) (nn : SimpleNeuralNetwork)
    (input_activations : ColumnVector) : ColumnVector :=
  feed_forward_steps sg nn.steps input_activations

/-- Modelled from the spec: the external `Matrix::mult_vector` aborts with
a dimension-mismatch defect when the vector length differs from the matrix
column count; the abort is modelled as `none`. -/
def Matrix.mult_vector_checked (m : Matrix) (v : ColumnVector) : Option ColumnVector :=
  if v.length = m.columns then some (m.mult_vector v) else none

/-- The weighted-sum function `z` with the modelled dimension check of the
external collaborator. -/
def z_checked (weight_matrix : Matrix) (bias_v input_v : ColumnVector) : Option ColumnVector :=
  (weight_matrix.mult_vector_checked input_v).map (fun zv => ColumnVector.add zv bias_v)

/-- The loop body of `feed_forward` with the modelled dimension check. -/
def feed_forward_steps_checked (sg : ℚ → ℚ) :
    List (Matrix × ColumnVector) → ColumnVector → Option ColumnVector
  | [], a => some a
  | (w, b) :: rest, a =>
    match z_checked w b a with
    | none => none
    | some zv => feed_forward_steps_checked sg rest (sigmoid_vector sg zv)

/-- `SimpleNeuralNetwork::feed_forward` with the modelled dimension-
mismatch abort of the external matrix-vector multiply. -/
def SimpleNeuralNetwork.feed_forward_checked (sg : ℚ → ℚ) (nn : SimpleNeuralNetwork)
    (input_activations : ColumnVector) : Option ColumnVector :=
  feed_forward_steps_checked sg nn.steps input_activations

/-- The loop body of `SimpleNeuralNetwork::feed_forward_capturing` for the
layers after the input layer. -/
def capture_steps (sg : ℚ → ℚ) :
    List (Matrix × ColumnVector) → ColumnVector → List FeedForwardIntermediates
  | [], _ => []
  | (w, b) :: rest, a =>
    let z_vec := z w b a
    let a2 := sigmoid_vector sg z_vec
    { z_vector := z_vec, activations_vector := a2 } :: capture_steps sg rest a2

/-- `SimpleNeuralNetwork::feed_forward_capturing` from the source: one
entry per layer, the layer-0 entry holding the input activations and the
(never read) sentinel z vector. -/
def SimpleNeuralNetwork.feed_forward_capturing (sg : ℚ → ℚ) (nn : SimpleNeuralNetwork)
    (input_activations : ColumnVector) : List FeedForwardIntermediates :=
  { z_vector := List.replicate input_activations.length 0
    activations_vector := input_activations }
    :: capture_steps sg nn.steps input_activations

/-- `SimpleNeuralNetwork::cost_single_tr_ex` from the source; both panics
(input length vs input-layer size, output length vs desired length) are
modelled as `none`. -/
def SimpleNeuralNetwork.cost_single_tr_ex (sg : ℚ → ℚ) (nn : SimpleNeuralNetwork)
    (tr_ex : TrainingDataPoint) : Option ℚ :=
  if tr_ex.input_v.length ≠ nn.sizes.getD 0 0 then none
  else
    let outputs := nn.feed_forward sg tr_ex.input_v
    if outputs.length ≠ tr_ex.desired_output_v.length then none
    else quadratic_cost tr_ex.desired_output_v outputs

/-- `SimpleNeuralNetwork::cost_training_set` from the source: the
arithmetic mean of the per-example costs; a panic in any per-example cost
propagates as `none`. -/
def SimpleNeuralNetwork.cost_training_set (sg : ℚ → ℚ) (nn : SimpleNeuralNetwork)
    (training_data : List TrainingDataPoint) : Option ℚ :=
  (training_data.mapM (nn.cost_single_tr_ex sg)).map
    (fun cs => cs.sum / (training_data.length : ℚ))

/-- The happy-path value of `quadratic_cost` (the panic branch of the
source is unreachable whenever the lengths agree, which holds at every
call site inside the training loop once the initial cost computation has
succeeded). -/
def quadratic_cost_t (desired_v actual_v : ColumnVector) : ℚ :=
  (((List.zipWith (fun e a => e - a) desired_v actual_v).map square).sum) / 2

/-- The happy-path value of `cost_single_tr_ex`. -/
def SimpleNeuralNetwork.cost_single_tr_ex_t (sg : ℚ → ℚ) (nn : SimpleNeuralNetwork)
    (tr_ex : TrainingDataPoint) : ℚ :=
  quadratic_cost_t tr_ex.desired_output_v (nn.feed_forward sg tr_ex.input_v)

/-- The happy-path value of `cost_training_set`, used inside the training
loop where the source's dimension aborts are unreachable (they are
detected at the boundary, modelled by the `Option`-valued functions). -/
def SimpleNeuralNetwork.cost_training_set_t (sg : ℚ → ℚ) (nn : SimpleNeuralNetwork)
    (training_data : List TrainingDataPoint) : ℚ :=
  (training_data.map (nn.cost_single_tr_ex_t sg)).sum / (training_data.length : ℚ)

/-- `SimpleNeuralNetwork::unroll_weights_and_biases` from the source:
layer 1's weights row-major, then its biases, then layer 2's, and so on.
The source iterates `l` over `1 .. num_layers - 1` indexing
`weights[l-1]` / `biases[l-1]`; under the structural invariant this is the
concatenation over the zipped sequences. -/
def SimpleNeuralNetwork.unroll_weights_and_biases (nn : SimpleNeuralNetwork) : List ℚ :=
  ((nn.steps).map (fun wb => wb.1.data ++ wb.2)).flatten

/-- Modelled lookup in the layer-indexed maps the source keeps as hash
maps from `LayerIndex`: the maps are modelled as association lists (their
key sets are always `1 .. L-1`) and `get` as the first association with
the requested key. -/
def assoc_get {α : Type} (xs : List (ℕ × α)) (k : ℕ) : Option α :=
  (xs.find? (fun p => p.1 == k)).map (fun p => p.2)

/-- The pointer walk of `SimpleNeuralNetwork::reshape_weights_and_biases`:
for each layer `l`, the next `sizes[l] * sizes[l-1]` entries form the
row-major weight matrix and the following `sizes[l]` entries the bias
vector; the advancing pointer is modelled by take/drop. -/
def reshape_walk (sizes : List ℕ) :
    List ℕ → List ℚ → List (ℕ × (Matrix × ColumnVector))
  | [], _ => []
  | l :: rest, theta =>
    let r := sizes.getD l 0
    let c := sizes.getD (l - 1) 0
    let w : Matrix := { rows := r, columns := c, data := theta.take (r * c) }
    let after_w := theta.drop (r * c)
    (l, (w, after_w.take r)) :: reshape_walk sizes rest (after_w.drop r)

/-- `SimpleNeuralNetwork::reshape_weights_and_biases` from the source. -/
def SimpleNeuralNetwork.reshape_weights_and_biases (nn : SimpleNeuralNetwork)
    (big_theta_v : List ℚ) : List (ℕ × (Matrix × ColumnVector)) :=
  reshape_walk nn.sizes (List.range' 1 (nn.num_layers - 1)) big_theta_v

/-- The loop of `SimpleNeuralNetwork::ff`, iterating the layer indices and
looking each layer up in the reshaped map; the source's `unwrap` of a
missing layer is modelled by a default empty layer (never hit on the maps
produced by `reshape_weights_and_biases`). -/
def ff_walk (sg : ℚ → ℚ) (wb : List (ℕ × (Matrix × ColumnVector))) :
    List ℕ → ColumnVector → ColumnVector
  | [], a => a
  | l :: rest, a =>
    let p := (assoc_get wb l).getD (Mdefault, [])
    ff_walk sg wb rest (sigmoid_vector sg (z p.1 p.2 a))

/-- `SimpleNeuralNetwork::ff` from the source: feed forward through a
reshaped weights-and-biases map. -/
def SimpleNeuralNetwork.ff (sg : ℚ → ℚ) (input_v : ColumnVector) (sizes : List ℕ)
    (wb : List (ℕ × (Matrix × ColumnVector))) : ColumnVector :=
  ff_walk sg wb (List.range' 1 (sizes.length - 1)) input_v

/-- The happy-path value of `SimpleNeuralNetwork::cost_reshaped_single`
(the source's dimension panics mirror `cost_single_tr_ex` and are
unreachable in a training run that has passed the boundary check). -/
def SimpleNeuralNetwork.cost_reshaped_single_t (sg : ℚ → ℚ) (nn : SimpleNeuralNetwork)
    (tr_ex : TrainingDataPoint) (sizes : List ℕ)
    (wb : List (ℕ × (Matrix × ColumnVector))) : ℚ :=
  quadratic_cost_t tr_ex.desired_output_v (SimpleNeuralNetwork.ff sg tr_ex.input_v sizes wb)

/-- `SimpleNeuralNetwork::cost_reshaped_set` from the source (happy
path): mean of the reshaped per-example costs. -/
def SimpleNeuralNetwork.cost_reshaped_set_t (sg : ℚ → ℚ) (nn : SimpleNeuralNetwork)
    (training_data : List TrainingDataPoint)
    (wb : List (ℕ × (Matrix × ColumnVector))) : ℚ :=
  (training_data.map (fun tr_ex => nn.cost_reshaped_single_t sg tr_ex nn.sizes wb)).sum /
    (training_data.length : ℚ)

/-- `SimpleNeuralNetwork::approximate_cost_gradient` from the source: for
each index of the unrolled parameter vector, perturb that single entry up
and down by `GRADIENT_CHECK_EPSILON`, reshape, evaluate the dataset cost
twice and take the central difference quotient.  The in-place mutation and
restore of `big_theta_v[i]` is modelled by `List.set` on the pristine
vector, which each iteration reads afresh. -/
def SimpleNeuralNetwork.approximate_cost_gradient (sg : ℚ → ℚ) (nn : SimpleNeuralNetwork)
    (training_data : List TrainingDataPoint) : List ℚ :=
  let big_theta_v := nn.unroll_weights_and_biases
  (List.range big_theta_v.length).map (fun i =>
    let orig_i_value := big_theta_v.getD i 0
    let cost_plus_epsilon := nn.cost_reshaped_set_t sg training_data
      (nn.reshape_weights_and_biases (big_theta_v.set i (orig_i_value + GRADIENT_CHECK_EPSILON)))
    let cost_minus_epsilon := nn.cost_reshaped_set_t sg training_data
      (nn.reshape_weights_and_biases (big_theta_v.set i (orig_i_value - GRADIENT_CHECK_EPSILON)))
    (cost_plus_epsilon - cost_minus_epsilon) / GRADIENT_CHECK_TWICE_EPSILON)

/-- `SimpleNeuralNetwork::err_last_layer` from the source: Hadamard
product of (activations minus expected outputs) with the sigmoid
derivative of the stored output-layer z vector. -/
def err_last_layer (sg : ℚ → ℚ)
    (output_activations_vector expected_outputs_vector output_layer_z_vector : ColumnVector) :
    ColumnVector :=
  ColumnVector.hadamard_product
    (ColumnVector.minus output_activations_vector expected_outputs_vector)
    (sigmoid_prime_vector sg output_layer_z_vector)

/-- `SimpleNeuralNetwork::err_non_last_layer` from the source: for layer
`l`, `weights[l]` is the layer-`l+1` weight matrix; its transpose times
the next layer's error vector, Hadamard the sigmoid derivative of this
layer's stored z vector.  The source's `weights.get(layer).unwrap()` is
modelled with a default empty matrix (never hit for `1 ≤ l < L-1` on a
well-formed network). -/
def err_non_last_layer (sg : ℚ → ℚ) (nn : SimpleNeuralNetwork) (layer : ℕ)
    (error_vector_for_plus_one_layer this_layer_z_vector : ColumnVector) : ColumnVector :=
  let weight_matrix := nn.weights.getD layer Mdefault
  ColumnVector.hadamard_product
    ((weight_matrix.transpose).mult_vector error_vector_for_plus_one_layer)
    (sigmoid_prime_vector sg this_layer_z_vector)

/-- The loop of `SimpleNeuralNetwork::backprop`, walking the layer indices
from `L-1` down to `1` and inserting each layer's error vector into the
accumulated map; the lookup of layer `l+1` (`unwrap`ped in the source) is
modelled with a default (never hit: that key was inserted by the previous
iteration). -/
def backprop_walk (sg : ℚ → ℚ) (nn : SimpleNeuralNetwork)
    (desired_output_v : ColumnVector) (intermediates : List FeedForwardIntermediates) :
    List ℕ → List (ℕ × ColumnVector) → List (ℕ × ColumnVector)
  | [], acc => acc
  | l :: rest, acc =>
    let z_v := (intermediates.getD l FFIdefault).z_vector
    let err_v :=
      if l = nn.num_layers - 1 then
        err_last_layer sg
          (intermediates.getD (nn.num_layers - 1) FFIdefault).activations_vector
          desired_output_v z_v
      else
        err_non_last_layer sg nn l ((assoc_get acc (l + 1)).getD []) z_v
    backprop_walk sg nn desired_output_v intermediates rest ((l, err_v) :: acc)

/-- `SimpleNeuralNetwork::backprop` from the source. -/
def SimpleNeuralNetwork.backprop (sg : ℚ → ℚ) (nn : SimpleNeuralNetwork)
    (desired_output_v : ColumnVector) (intermediates : List FeedForwardIntermediates) :
    List (ℕ × ColumnVector) :=
  backprop_walk sg nn desired_output_v intermediates
    ((List.range' 1 (nn.num_layers - 1)).reverse) []

/-- `SimpleNeuralNetwork::backprop` written with the receiver threaded
through explicitly, mirroring the source's shared borrow of `self`: the
network comes back unchanged next to the error-vector map. -/
def SimpleNeuralNetwork.backprop_with_receiver (sg : ℚ → ℚ) (nn : SimpleNeuralNetwork)
    (desired_output_v : ColumnVector) (intermediates : List FeedForwardIntermediates) :
    SimpleNeuralNetwork × List (ℕ × ColumnVector) :=
  (nn, nn.backprop sg desired_output_v intermediates)

/-- The per-layer body of `SimpleNeuralNetwork::compute_gradients`: the
zero-initialised accumulators for layer `l`, the single pass over every
supplied example adding the outer product `delta_l * a_{l-1}^T` into the
weight accumulator and `delta_l` into the bias accumulator, and the final
division of both by the number of training examples. -/
def layer_gradient (nn : SimpleNeuralNetwork)
    (per_tr_ex_data : List (List FeedForwardIntermediates × List (ℕ × ColumnVector)))
    (l : ℕ) : Matrix × ColumnVector :=
  let num_training_examples := per_tr_ex_data.length
  let acc0 := (Matrix.new_zero_matrix (nn.sizes.getD l 0) (nn.sizes.getD (l - 1) 0),
               ColumnVector.new_zero_vector (nn.sizes.getD l 0))
  let sums := per_tr_ex_data.foldl (fun acc p =>
    let prev_layer_activations_v := (p.1.getD (l - 1) FFIdefault).activations_vector
    let this_layer_err_v := (assoc_get p.2 l).getD []
    (acc.1.add (ColumnVector.mult_matrix this_layer_err_v prev_layer_activations_v),
     ColumnVector.add acc.2 this_layer_err_v)) acc0
  (sums.1.divide_by_scalar (num_training_examples : ℚ),
   sums.2.divide_by_scalar (num_training_examples : ℚ))

/-- `SimpleNeuralNetwork::compute_gradients` from the source: per layer
(walked from `L-1` down to `1`), run `layer_gradient` and insert the
result into the gradients map. -/
def SimpleNeuralNetwork.compute_gradients (nn : SimpleNeuralNetwork)
    (per_tr_ex_data : List (List FeedForwardIntermediates × List (ℕ × ColumnVector))) :
    List (ℕ × (Matrix × ColumnVector)) :=
  ((List.range' 1 (nn.num_layers - 1)).reverse).foldl (fun gradients l =>
    (l, layer_gradient nn per_tr_ex_data l) :: gradients) []

/-- `SimpleNeuralNetwork::unroll_gradients` from the source: layerwise
concatenation of each gradient matrix's row-major data and bias vector in
ascending layer order. -/
def SimpleNeuralNetwork.unroll_gradients (nn : SimpleNeuralNetwork)
    (gradients : List (ℕ × (Matrix × ColumnVector))) : List ℚ :=
  ((List.range' 1 (nn.num_layers - 1)).map (fun l =>
    let g := (assoc_get gradients l).getD (Mdefault, [])
    g.1.data ++ g.2)).flatten

/-- The fatal aborts of `SimpleNeuralNetwork::train`, modelled as error
values: the boundary dimension-mismatch defect, a failed gradient check,
and a cost increase (reported with the previous cost, the new cost and
the epoch index, as in the source's panic message). -/
inductive TrainError where
  | dimension_mismatch : TrainError
  | failed_gradient_check : TrainError
  | cost_increased (prev cost : ℚ) (epoch : ℕ) : TrainError
  deriving DecidableEq

/-- The per-example forward/backward collection phase of one epoch of
`SimpleNeuralNetwork::train`. -/
def SimpleNeuralNetwork.collect_per_tr_ex_data (sg : ℚ → ℚ) (nn : SimpleNeuralNetwork)
    (training_data : List TrainingDataPoint) :
    List (List FeedForwardIntermediates × List (ℕ × ColumnVector)) :=
  training_data.map (fun tr_ex =>
    let intermediates := nn.feed_forward_capturing sg tr_ex.input_v
    (intermediates, nn.backprop sg tr_ex.desired_output_v intermediates))

/-- The update phase of one epoch of `SimpleNeuralNetwork::train`: each
layer's gradient pair is scaled by the learning rate and subtracted in
place from that layer's weight matrix and bias vector (`weights[l-1]` /
`biases[l-1]`). -/
def SimpleNeuralNetwork.update_weights_and_biases (nn : SimpleNeuralNetwork)
    (gradients : List (ℕ × (Matrix × ColumnVector))) (learning_rate : ℚ) :
    SimpleNeuralNetwork :=
  gradients.foldl (fun acc lg =>
    let weights_grad := lg.2.1.multiply_by_scalar learning_rate
    let bias_grad := lg.2.2.multiply_by_scalar learning_rate
    let i := lg.1 - 1
    { acc with
      weights := acc.weights.set i ((acc.weights.getD i Mdefault).subtract weights_grad)
      biases := acc.biases.set i
        (ColumnVector.minus (acc.biases.getD i []) bias_grad) }) nn

/-- One epoch of the loop body of `SimpleNeuralNetwork::train`: collect,
aggregate, optional gradient check, in-place update, optional
cost-decreasing check; returns the updated network and the value carried
as `prev_cost` into the next epoch. -/
def SimpleNeuralNetwork.train_step (sg sqrt : ℚ → ℚ)
    (training_data : List TrainingDataPoint) (learning_rate : ℚ)
    (check_options : CheckOptions) (nn : SimpleNeuralNetwork)
    (epocs_count : ℕ) (prev_cost : ℚ) : Except TrainError (SimpleNeuralNetwork × ℚ) :=
  let per_tr_ex_data := nn.collect_per_tr_ex_data sg training_data
  let gradients := nn.compute_gradients per_tr_ex_data
  let check_result : Except TrainError Unit :=
    if check_options.gradient_checking then
      let approx_gradients_big_v := nn.approximate_cost_gradient sg training_data
      let d_vec := nn.unroll_gradients gradients
      let ed := euclidian_distance sqrt approx_gradients_big_v d_vec
      if ed > GRADIENT_CHECK_EPSILON_SQUARED then Except.error TrainError.failed_gradient_check
      else
        let normalized_distance := euclidian_distance sqrt approx_gradients_big_v d_vec /
          (euclidian_length sqrt approx_gradients_big_v + euclidian_length sqrt d_vec)
        if normalized_distance > GRADIENT_CHECK_EPSILON_SQUARED then
          Except.error TrainError.failed_gradient_check
        else Except.ok ()
    else Except.ok ()
  match check_result with
  | Except.error e => Except.error e
  | Except.ok _ =>
    let updated := nn.update_weights_and_biases gradients learning_rate
    if check_options.cost_decreasing_check then
      let cost := updated.cost_training_set_t sg training_data
      if cost > prev_cost then
        Except.error (TrainError.cost_increased prev_cost cost epocs_count)
      else Except.ok (updated, cost)
    else Except.ok (updated, prev_cost)

/-- The epoch loop of `SimpleNeuralNetwork::train`: the source counts
`epocs_count` up to `epocs`, which is the same as running `epocs`
iterations; `epocs_count` is still threaded for the cost-increase
report. -/
def SimpleNeuralNetwork.train_loop (sg sqrt : ℚ → ℚ)
    (training_data : List TrainingDataPoint) (learning_rate : ℚ)
    (check_options : CheckOptions) :
    ℕ → SimpleNeuralNetwork → ℕ → ℚ → Except TrainError SimpleNeuralNetwork
  | 0, nn, _, _ => Except.ok nn
  | Nat.succ fuel, nn, epocs_count, prev_cost =>
    match nn.train_step sg sqrt training_data learning_rate check_options
        epocs_count prev_cost with
    | Except.error e => Except.error e
    | Except.ok (nn2, p2) =>
      train_loop sg sqrt training_data learning_rate check_options fuel nn2
        (epocs_count + 1) p2

/-- `SimpleNeuralNetwork::train` from the source: the initial
`cost_training_set` computation is the boundary where dimension defects
abort (modelled as an error value), its value seeds `prev_cost`, the
absent check options default to `no_checks`, and the epoch loop runs for
the configured count.  The final cost report recomputes a cost that
cannot abort once the initial computation succeeded (shapes are preserved
by every epoch), so it is modelled as a no-op. -/
def SimpleNeuralNetwork.train (sg sqrt : ℚ → ℚ) (nn : SimpleNeuralNetwork)
    (training_data : List TrainingDataPoint) (epocs : ℕ) (learning_rate : ℚ)
    (check_options : Option CheckOptions) : Except TrainError SimpleNeuralNetwork :=
  match nn.cost_training_set sg training_data with
  | none => Except.error TrainError.dimension_mismatch
  | some initial_cost =>
    SimpleNeuralNetwork.train_loop sg sqrt training_data learning_rate
      (check_options.getD CheckOptions.no_checks) epocs nn 0 initial_cost

/-- The explicit solution of the backprop recursion, used to reason about
the walk: `delta_chain k` is the error vector the source computes for
layer `L-1-k` (so `delta_chain 0` is the output layer's). -/
def delta_chain (sg : ℚ → ℚ) (nn : SimpleNeuralNetwork) (desired_output_v : ColumnVector)
    (intermediates : List FeedForwardIntermediates) : ℕ → ColumnVector
  | 0 =>
    err_last_layer sg
      (intermediates.getD (nn.num_layers - 1) FFIdefault).activations_vector
      desired_output_v
      (intermediates.getD (nn.num_layers - 1) FFIdefault).z_vector
  | k + 1 =>
    err_non_last_layer sg nn (nn.num_layers - 1 - (k + 1))
      (delta_chain sg nn desired_output_v intermediates k)
      ((intermediates.getD (nn.num_layers - 1 - (k + 1)) FFIdefault).z_vector)

/-- Dimensional well-formedness of a training set against a network, as
the spec's data model states it: inputs of the input-layer length and
desired outputs of the output-layer length.  It only depends on the
network's layer sizes.  An ill-dimensioned set can never get past the
boundary cost computation of `train` (the modelled dimension defect). -/
def DataWellformed (nn : SimpleNeuralNetwork) (training_data : List TrainingDataPoint) :
    Prop :=
  ∀ tr_ex ∈ training_data,
    tr_ex.input_v.length = nn.sizes.getD 0 0 ∧
    tr_ex.desired_output_v.length = nn.sizes.getD (nn.sizes.length - 1) 0

instance (nn : SimpleNeuralNetwork) (training_data : List TrainingDataPoint) :
    Decidable (DataWellformed nn training_data) := by
  unfold DataWellformed
  exact List.decidableBAll _ training_data

/-- A concrete two-layer (2 → 1) network with zero parameters, used as a
shared concrete instance in the witness theorems. -/
def nn21 : SimpleNeuralNetwork :=
  { sizes := [2, 1]
    weights := [{ rows := 1, columns := 2, data := [0, 0] }]
    biases := [[0]] }

/-- A concrete three-layer (1 → 1 → 1) network with zero parameters, used
as a shared concrete instance in the witness theorems. -/
def nn111 : SimpleNeuralNetwork :=
  { sizes := [1, 1, 1]
    weights := [{ rows := 1, columns := 1, data := [0] },
                { rows := 1, columns := 1, data := [0] }]
    biases := [[0], [0]] }

/-- A concrete training set matching the shape of `nn111`, used in the
witness theorems. -/
def data111 : List TrainingDataPoint :=
  [{ input_v := [0], desired_output_v := [0] }]

/-- C8: quadratic_cost equals half the sum of squared componentwise
differences when the lengths agree, fails (panics, modelled as `none`) when
they differ, vanishes on identical vectors, and takes the documented value
4 on ([4,4],[2,2]). -/
theorem c8_quadratic_cost (d a v : ColumnVector) (h : d.length = a.length) :
    quadratic_cost d a =
      some ((1 / 2) * ((List.zipWith (fun x y => (x - y) ^ 2) d a).sum)) ∧
    (∀ d2 a2 : ColumnVector, d2.length ≠ a2.length → quadratic_cost d2 a2 = none) ∧
    quadratic_cost v v = some 0 ∧
    quadratic_cost [4, 4] [2, 2] = some 4 := by
  refine ⟨?_, ?_, ?_, ?_⟩
  · unfold quadratic_cost
    rw [if_neg (by omega)]
    congr 1
    rw [List.map_zipWith]
    have hfun : (fun (x y : ℚ) => square (x - y)) = fun (x y : ℚ) => (x - y) ^ 2 := by
      funext x y
      simp [square, pow_two]
    rw [hfun]
    ring
  · intro d2 a2 hne
    simp [quadratic_cost, hne]
  · have hz : List.zipWith (fun e a => e - a) v v = List.replicate v.length 0 := by
      induction v with
      | nil => simp
      | cons x xs ih => simp [ih, List.replicate_succ]
    simp [quadratic_cost, hz, square]
  · norm_num [quadratic_cost, square]

/-- Witness for C8 at concrete vectors. -/
theorem c8_quadratic_cost_witness :
    ([ (1 : ℚ), 2 ] : ColumnVector).length = ([ (3 : ℚ), 5 ] : ColumnVector).length ∧
    quadratic_cost [(1 : ℚ), 2] [3, 5] =
      some ((1 / 2) * ((List.zipWith (fun x y => (x - y) ^ 2) [(1 : ℚ), 2] [3, 5]).sum)) := by
  refine ⟨by decide, ?_⟩
  exact (c8_quadratic_cost [(1 : ℚ), 2] [3, 5] [0] (by decide)).1

theorem mult_vector_length (m : Matrix) (v : ColumnVector) :
    (m.mult_vector v).length = m.rows := by
  simp [Matrix.mult_vector]

theorem cv_add_length (a b : ColumnVector) :
    (ColumnVector.add a b).length = min a.length b.length := by
  simp [ColumnVector.add]

theorem z_length (w : Matrix) (b v : ColumnVector) (h : b.length = w.rows) :
    (z w b v).length = w.rows := by
  simp [z, cv_add_length, mult_vector_length, h]

theorem sigmoid_vector_length (sg : ℚ → ℚ) (v : ColumnVector) :
    (sigmoid_vector sg v).length = v.length := by
  simp [sigmoid_vector]

theorem wellformed_steps_length (nn : SimpleNeuralNetwork) (hwf : Wellformed nn) :
    nn.steps.length = nn.sizes.length - 1 := by
  simp [SimpleNeuralNetwork.steps, List.length_zip, hwf.1, hwf.2.1]

theorem wellformed_steps_getElem (nn : SimpleNeuralNetwork) (hwf : Wellformed nn)
    (i : ℕ) (hi : i < nn.sizes.length - 1) :
    nn.steps.getD i (Mdefault, []) =
      (nn.weights.getD i Mdefault, nn.biases.getD i []) := by
  have hw : i < nn.weights.length := by rw [hwf.1]; exact hi
  have hb : i < nn.biases.length := by rw [hwf.2.1]; exact hi
  have hs : i < nn.steps.length := by rw [wellformed_steps_length nn hwf]; exact hi
  rw [List.getD_eq_getElem _ _ hs, List.getD_eq_getElem _ _ hw, List.getD_eq_getElem _ _ hb]
  exact List.getElem_zip ..

/-- The generic lookup law for maps modelled as `range'`-indexed
association lists. -/
theorem assoc_get_range'_map {α : Type} (f : ℕ → α) :
    ∀ (s n j : ℕ), s ≤ j → j < s + n →
      assoc_get ((List.range' s n).map (fun l => (l, f l))) j = some (f j) := by
  intro s n
  induction n generalizing s with
  | zero => intro j h1 h2; omega
  | succ n ih =>
    intro j h1 h2
    rw [List.range'_succ]
    by_cases hj : s = j
    · subst hj
      simp [assoc_get, List.find?]
    · have : assoc_get (((s, f s)) :: (List.range' (s + 1) n).map (fun l => (l, f l))) j =
          assoc_get ((List.range' (s + 1) n).map (fun l => (l, f l))) j := by
        simp only [assoc_get, List.find?]
        have : ((s, f s).1 == j) = false := by simp [hj]
        rw [this]
      rw [List.map_cons, this]
      exact ih (s + 1) j (by omega) (by omega)

/-- Lookup outside the key range of a `range'`-indexed association list. -/
theorem assoc_get_range'_map_none {α : Type} (f : ℕ → α) :
    ∀ (s n j : ℕ), j < s ∨ s + n ≤ j →
      assoc_get ((List.range' s n).map (fun l => (l, f l))) j = none := by
  intro s n
  induction n generalizing s with
  | zero => intro j _; simp [assoc_get]
  | succ n ih =>
    intro j hj
    rw [List.range'_succ, List.map_cons]
    have hne : ((s, f s).1 == j) = false := by simp; omega
    simp only [assoc_get, List.find?, hne]
    exact ih (s + 1) j (by omega)

theorem drop_steps_nil (nn : SimpleNeuralNetwork) (hwf : Wellformed nn) (k : ℕ)
    (hk : nn.sizes.length - 1 ≤ k) : nn.steps.drop k = [] := by
  apply List.drop_eq_nil_of_le
  rw [wellformed_steps_length nn hwf]
  exact hk

theorem steps_drop_cons (nn : SimpleNeuralNetwork) (hwf : Wellformed nn) (k : ℕ)
    (hk : k < nn.sizes.length - 1) :
    nn.steps.drop k =
      (nn.weights.getD k Mdefault, nn.biases.getD k []) :: nn.steps.drop (k + 1) := by
  have hs : k < nn.steps.length := by rw [wellformed_steps_length nn hwf]; exact hk
  rw [List.drop_eq_getElem_cons hs]
  congr 1
  have := wellformed_steps_getElem nn hwf k hk
  rwa [List.getD_eq_getElem _ _ hs] at this

theorem wf_z_length (nn : SimpleNeuralNetwork) (hwf : Wellformed nn) (k : ℕ)
    (hk : k < nn.sizes.length - 1) (a : ColumnVector) :
    (z (nn.weights.getD k Mdefault) (nn.biases.getD k []) a).length =
      nn.sizes.getD (k + 1) 0 := by
  have h := hwf.2.2 k hk
  rw [z_length _ _ _ (by rw [h.2.2.2, h.1]), h.1]

theorem z_checked_some (w : Matrix) (b v : ColumnVector) (h : v.length = w.columns) :
    z_checked w b v = some (z w b v) := by
  unfold z_checked Matrix.mult_vector_checked z
  rw [if_pos h]
  rfl

theorem z_checked_fails (w : Matrix) (b v : ColumnVector) (h : v.length ≠ w.columns) :
    z_checked w b v = none := by
  unfold z_checked Matrix.mult_vector_checked
  rw [if_neg h]
  rfl

/-- With the modelled dimension check, a feed-forward suffix starting at
layer `k` with a correctly sized activation succeeds and computes the
unchecked feed-forward value. -/
theorem ffsc_drop_ok (sg : ℚ → ℚ) (nn : SimpleNeuralNetwork) (hwf : Wellformed nn) :
    ∀ (n k : ℕ) (a : ColumnVector), n = nn.sizes.length - 1 - k →
      a.length = nn.sizes.getD k 0 →
      feed_forward_steps_checked sg (nn.steps.drop k) a =
        some (feed_forward_steps sg (nn.steps.drop k) a) := by
  intro n
  induction n with
  | zero =>
    intro k a hn _
    rw [drop_steps_nil nn hwf k (by omega)]
    rfl
  | succ n ih =>
    intro k a hn ha
    have hk : k < nn.sizes.length - 1 := by omega
    rw [steps_drop_cons nn hwf k hk]
    have hcol : (nn.weights.getD k Mdefault).columns = nn.sizes.getD k 0 :=
      (hwf.2.2 k hk).2.1
    have hzc : z_checked (nn.weights.getD k Mdefault) (nn.biases.getD k []) a =
        some (z (nn.weights.getD k Mdefault) (nn.biases.getD k []) a) :=
      z_checked_some _ _ _ (by rw [ha, hcol])
    simp only [feed_forward_steps_checked, feed_forward_steps, hzc]
    exact ih (k + 1)
      (sigmoid_vector sg (z (nn.weights.getD k Mdefault) (nn.biases.getD k []) a))
      (by omega)
      (by rw [sigmoid_vector_length, wf_z_length nn hwf k hk])

/-- The length of a feed-forward suffix output is the output-layer size,
independently of the input activation vector. -/
theorem ffs_drop_length (sg : ℚ → ℚ) (nn : SimpleNeuralNetwork) (hwf : Wellformed nn) :
    ∀ (n k : ℕ) (a : ColumnVector), n = nn.sizes.length - 1 - k →
      k < nn.sizes.length - 1 →
      (feed_forward_steps sg (nn.steps.drop k) a).length =
        nn.sizes.getD (nn.sizes.length - 1) 0 := by
  intro n
  induction n with
  | zero => intro k a hn hk; omega
  | succ n ih =>
    intro k a hn hk
    rw [steps_drop_cons nn hwf k hk]
    simp only [feed_forward_steps]
    by_cases hk1 : k + 1 < nn.sizes.length - 1
    · exact ih (k + 1) _ (by omega) hk1
    · have hk1e : k + 1 = nn.sizes.length - 1 := by omega
      rw [drop_steps_nil nn hwf (k + 1) (by omega)]
      simp only [feed_forward_steps]
      rw [sigmoid_vector_length, wf_z_length nn hwf k hk, hk1e]

/-- The output length of `feed_forward` on a network with at least two
layers is the output-layer size, for any input vector. -/
theorem feed_forward_length (sg : ℚ → ℚ) (nn : SimpleNeuralNetwork) (hwf : Wellformed nn)
    (h2 : 2 ≤ nn.num_layers) (a : ColumnVector) :
    (nn.feed_forward sg a).length = nn.sizes.getD (nn.sizes.length - 1) 0 := by
  have h0 : nn.steps.drop 0 = nn.steps := rfl
  unfold SimpleNeuralNetwork.feed_forward
  rw [← h0]
  exact ffs_drop_length sg nn hwf (nn.sizes.length - 1) 0 a (by omega)
    (by unfold SimpleNeuralNetwork.num_layers at h2; omega)

/-- C6 (amended): on a well-formed network with at least two layers, the
modelled feed-forward aborts exactly when the input length differs from
the input-layer size, and the cost call aborts exactly when the input or
the desired-output length does not match the corresponding layer size.
(The claim as frozen quantifies over every network; a single-layer network
performs no matrix multiplication at all, so its feed-forward cannot
detect the mismatch — see the counterexample.) -/
theorem c6_dimension_defects (sg : ℚ → ℚ) (nn : SimpleNeuralNetwork)
    (hwf : Wellformed nn) (h2 : 2 ≤ nn.num_layers)
    (input_v : ColumnVector) (tr_ex : TrainingDataPoint) :
    (nn.feed_forward_checked sg input_v = none ↔
      input_v.length ≠ nn.sizes.getD 0 0) ∧
    (nn.cost_single_tr_ex sg tr_ex = none ↔
      (tr_ex.input_v.length ≠ nn.sizes.getD 0 0 ∨
        tr_ex.desired_output_v.length ≠ nn.sizes.getD (nn.num_layers - 1) 0)) := by
  unfold SimpleNeuralNetwork.num_layers at h2 ⊢
  have hlen : 0 < nn.sizes.length - 1 := by omega
  constructor
  · constructor
    · intro hnone hlenq
      have := ffsc_drop_ok sg nn hwf (nn.sizes.length - 1) 0 input_v (by omega) hlenq
      simp only [List.drop_zero] at this
      unfold SimpleNeuralNetwork.feed_forward_checked at hnone
      rw [this] at hnone
      exact Option.noConfusion hnone
    · intro hne
      unfold SimpleNeuralNetwork.feed_forward_checked
      rw [show nn.steps = nn.steps.drop 0 from rfl, steps_drop_cons nn hwf 0 hlen]
      have hcol : (nn.weights.getD 0 Mdefault).columns = nn.sizes.getD 0 0 :=
        (hwf.2.2 0 hlen).2.1
      have hzn : z_checked (nn.weights.getD 0 Mdefault) (nn.biases.getD 0 []) input_v =
          none :=
        z_checked_fails _ _ _ (by rw [hcol]; exact hne)
      simp only [feed_forward_steps_checked, hzn]
  · unfold SimpleNeuralNetwork.cost_single_tr_ex
    by_cases hin : tr_ex.input_v.length = nn.sizes.getD 0 0
    · rw [if_neg (by simpa using hin)]
      have hout : (nn.feed_forward sg tr_ex.input_v).length =
          nn.sizes.getD (nn.sizes.length - 1) 0 :=
        feed_forward_length sg nn hwf h2 tr_ex.input_v
      by_cases hdes : tr_ex.desired_output_v.length = nn.sizes.getD (nn.sizes.length - 1) 0
      · rw [if_neg (by omega)]
        have hq : quadratic_cost tr_ex.desired_output_v
            (nn.feed_forward sg tr_ex.input_v) ≠ none := by
          unfold quadratic_cost
          rw [if_neg (by omega)]
          exact Option.noConfusion
        constructor
        · intro h
          exact absurd h hq
        · intro h
          rcases h with h | h
          · exact absurd hin h
          · exact absurd hdes h
      · rw [if_pos (by omega)]
        constructor
        · intro _; right; exact hdes
        · intro _; rfl
    · rw [if_pos (by simpa using hin)]
      constructor
      · intro _; left; exact hin
      · intro _; rfl

/-- Counterexample to C6 as frozen: on the (constructible) single-layer
network of sizes `[1]`, feed-forward performs no inter-layer step, so an
input of mismatched length (here the empty vector, length 0 ≠ 1) is
passed through successfully instead of aborting. -/
theorem c6_counterexample :
    SimpleNeuralNetwork.feed_forward_checked (fun q => q)
        { sizes := [1], weights := [], biases := [] } [] = some [] ∧
    ([] : ColumnVector).length ≠
      ({ sizes := [1], weights := [], biases := [] } : SimpleNeuralNetwork).sizes.getD 0 0 :=
  ⟨rfl, by decide⟩

/-- Witness for the amended C6 on a concrete well-formed two-layer
network. -/
theorem c6_dimension_defects_witness :
    Wellformed nn21 ∧
    2 ≤ nn21.num_layers ∧
    (nn21.feed_forward_checked (fun q => q) [] = none ↔
      ([] : ColumnVector).length ≠ nn21.sizes.getD 0 0) := by
  refine ⟨by decide, by decide, ?_⟩
  exact (c6_dimension_defects (fun q => q) nn21 (by decide) (by decide) []
    { input_v := [], desired_output_v := [] }).1

/-- C10: training for zero epochs performs no parameter update: whenever
`train` returns at all (rather than aborting at the boundary cost
computation), it returns the network unchanged. -/
theorem c10_zero_epocs_identity (sg sqrt : ℚ → ℚ) (nn nn2 : SimpleNeuralNetwork)
    (training_data : List TrainingDataPoint) (learning_rate : ℚ)
    (check_options : Option CheckOptions)
    (htr : nn.train sg sqrt training_data 0 learning_rate check_options = Except.ok nn2) :
    nn2 = nn := by
  unfold SimpleNeuralNetwork.train at htr
  cases h : nn.cost_training_set sg training_data with
  | none => rw [h] at htr; exact absurd htr (by simp)
  | some c =>
    rw [h] at htr
    unfold SimpleNeuralNetwork.train_loop at htr
    simpa using htr.symm

/-- Witness for C10: a concrete zero-epoch run returns the network
unchanged. -/
theorem c10_zero_epocs_identity_witness :
    SimpleNeuralNetwork.train (fun q => q) (fun q => q)
        { sizes := [1], weights := [], biases := [] } [] 0 1 none =
      Except.ok { sizes := [1], weights := [], biases := [] } ∧
    ({ sizes := [1], weights := [], biases := [] } : SimpleNeuralNetwork) =
      { sizes := [1], weights := [], biases := [] } := by
  refine ⟨rfl, ?_⟩
  exact c10_zero_epocs_identity (fun q => q) (fun q => q) _ _ [] 1 none rfl

theorem assoc_get_cons {α : Type} (k : ℕ) (v : α) (xs : List (ℕ × α)) (j : ℕ) :
    assoc_get ((k, v) :: xs) j = if k = j then some v else assoc_get xs j := by
  by_cases h : k = j
  · simp [assoc_get, List.find?, h]
  · simp only [assoc_get, List.find?]
    have : ((k, v).1 == j) = false := by simp [h]
    rw [this, if_neg h]

/-- The backprop walk over the descending layer list `[m, ..., 1]`
produces exactly the association list pairing each layer `l ≤ m` with the
explicit solution `delta_chain (L-1-l)`, prepended to the incoming
accumulator, provided the accumulator already answers the lookup for
layer `m+1` when one will be needed. -/
theorem backprop_walk_explicit (sg : ℚ → ℚ) (nn : SimpleNeuralNetwork)
    (desired_output_v : ColumnVector) (intermediates : List FeedForwardIntermediates) :
    ∀ (m : ℕ) (acc : List (ℕ × ColumnVector)), m ≤ nn.num_layers - 1 →
      (m < nn.num_layers - 1 →
        assoc_get acc (m + 1) =
          some (delta_chain sg nn desired_output_v intermediates
            (nn.num_layers - 1 - (m + 1)))) →
      backprop_walk sg nn desired_output_v intermediates ((List.range' 1 m).reverse) acc =
        ((List.range' 1 m).map
          (fun l => (l, delta_chain sg nn desired_output_v intermediates
            (nn.num_layers - 1 - l)))) ++ acc := by
  intro m
  induction m with
  | zero =>
    intro acc _ _
    simp [backprop_walk]
  | succ m ih =>
    intro acc hm hacc
    have hconcat : List.range' 1 (m + 1) = List.range' 1 m ++ [1 + m] := by
      simpa using @List.range'_concat 1 1 m
    rw [hconcat, List.reverse_append]
    simp only [List.reverse_cons, List.reverse_nil, List.nil_append, List.singleton_append]
    simp only [backprop_walk]
    by_cases hlast : 1 + m = nn.num_layers - 1
    · rw [if_pos hlast]
      have hval : err_last_layer sg
          (intermediates.getD (nn.num_layers - 1) FFIdefault).activations_vector
          desired_output_v
          ((intermediates.getD (1 + m) FFIdefault).z_vector) =
          delta_chain sg nn desired_output_v intermediates
            (nn.num_layers - 1 - (1 + m)) := by
        have h0 : nn.num_layers - 1 - (1 + m) = 0 := by omega
        rw [h0]
        simp only [delta_chain]
        rw [hlast]
      rw [hval]
      rw [ih ((1 + m, delta_chain sg nn desired_output_v intermediates
            (nn.num_layers - 1 - (1 + m))) :: acc) (by omega)
          (by
            intro _
            rw [assoc_get_cons, if_pos (by omega)]
            have he : nn.num_layers - 1 - (m + 1) = nn.num_layers - 1 - (1 + m) := by
              omega
            rw [he])]
      rw [List.map_append]
      simp only [List.map_cons, List.map_nil, List.append_assoc, List.singleton_append]
    · rw [if_neg hlast]
      have hlt : 1 + m < nn.num_layers - 1 := by omega
      have hlk : assoc_get acc (1 + m + 1) =
          some (delta_chain sg nn desired_output_v intermediates
            (nn.num_layers - 1 - (m + 2))) := by
        have h := hacc (by omega)
        have he : m + 1 + 1 = 1 + m + 1 := by omega
        have he2 : nn.num_layers - 1 - (m + 1 + 1) = nn.num_layers - 1 - (m + 2) := by omega
        rw [← he, h, he2]
      rw [hlk]
      simp only [Option.getD_some]
      have hval : err_non_last_layer sg nn (1 + m)
          (delta_chain sg nn desired_output_v intermediates
            (nn.num_layers - 1 - (m + 2)))
          ((intermediates.getD (1 + m) FFIdefault).z_vector) =
          delta_chain sg nn desired_output_v intermediates
            (nn.num_layers - 1 - (1 + m)) := by
        have e1 : nn.num_layers - 1 - (1 + m) = (nn.num_layers - 1 - (m + 2)) + 1 := by
          omega
        rw [e1]
        simp only [delta_chain]
        have e2 : nn.num_layers - 1 - (nn.num_layers - 1 - (m + 2) + 1) = 1 + m := by
          omega
        rw [e2]
      rw [hval]
      rw [ih ((1 + m, delta_chain sg nn desired_output_v intermediates
            (nn.num_layers - 1 - (1 + m))) :: acc) (by omega)
          (by
            intro _
            rw [assoc_get_cons, if_pos (by omega)]
            have he : nn.num_layers - 1 - (m + 1) = nn.num_layers - 1 - (1 + m) := by
              omega
            rw [he])]
      rw [List.map_append]
      simp only [List.map_cons, List.map_nil, List.append_assoc, List.singleton_append]

/-- The backprop result in explicit form: the association list pairing
each layer `1 ≤ l ≤ L-1` (in ascending order) with `delta_chain (L-1-l)`. -/
theorem backprop_explicit (sg : ℚ → ℚ) (nn : SimpleNeuralNetwork)
    (desired_output_v : ColumnVector) (intermediates : List FeedForwardIntermediates) :
    nn.backprop sg desired_output_v intermediates =
      (List.range' 1 (nn.num_layers - 1)).map
        (fun l => (l, delta_chain sg nn desired_output_v intermediates
          (nn.num_layers - 1 - l))) := by
  unfold SimpleNeuralNetwork.backprop
  have := backprop_walk_explicit sg nn desired_output_v intermediates
    (nn.num_layers - 1) [] (le_refl _) (by intro h; omega)
  simpa using this

/-- C1: for a network with at least two layers, backprop returns an
error-vector map keyed exactly by the layer indices 1..L-1; the
output-layer entry is (a_{L-1} - desired) Hadamard sigmoid-prime of the
stored z vector (with sigmoid-prime t = sigmoid t * (1 - sigmoid t)); each
hidden-layer entry l is (W_{l+1}^T * delta_{l+1}) Hadamard sigmoid-prime
of the stored z_l; and backprop hands the receiver back unchanged (it
never mutates the weights or biases). -/
theorem c1_backprop (sg : ℚ → ℚ) (nn : SimpleNeuralNetwork)
    (desired_output_v : ColumnVector) (intermediates : List FeedForwardIntermediates)
    (h2 : 2 ≤ nn.num_layers) :
    ((nn.backprop sg desired_output_v intermediates).map Prod.fst =
      List.range' 1 (nn.num_layers - 1)) ∧
    (assoc_get (nn.backprop sg desired_output_v intermediates) (nn.num_layers - 1) =
      some (ColumnVector.hadamard_product
        (ColumnVector.minus
          (intermediates.getD (nn.num_layers - 1) FFIdefault).activations_vector
          desired_output_v)
        ((intermediates.getD (nn.num_layers - 1) FFIdefault).z_vector.map
          (fun t => sg t * (1 - sg t))))) ∧
    (∀ l, 1 ≤ l → l < nn.num_layers - 1 →
      ∃ delta_next,
        assoc_get (nn.backprop sg desired_output_v intermediates) (l + 1) =
          some delta_next ∧
        assoc_get (nn.backprop sg desired_output_v intermediates) l =
          some (ColumnVector.hadamard_product
            (((nn.weights.getD l Mdefault).transpose).mult_vector delta_next)
            ((intermediates.getD l FFIdefault).z_vector.map
              (fun t => sg t * (1 - sg t))))) ∧
    nn.backprop_with_receiver sg desired_output_v intermediates =
      (nn, nn.backprop sg desired_output_v intermediates) := by
  have hex := backprop_explicit sg nn desired_output_v intermediates
  refine ⟨?_, ?_, ?_, rfl⟩
  · rw [hex, List.map_map]
    have : (Prod.fst ∘ fun l => (l, delta_chain sg nn desired_output_v intermediates
        (nn.num_layers - 1 - l))) = id := by
      funext l; rfl
    rw [this, List.map_id]
  · rw [hex, assoc_get_range'_map _ 1 (nn.num_layers - 1) (nn.num_layers - 1)
      (by omega) (by omega)]
    rw [Nat.sub_self]
    simp only [delta_chain, err_last_layer, sigmoid_prime_vector]
  · intro l h1 hl
    refine ⟨delta_chain sg nn desired_output_v intermediates
      (nn.num_layers - 1 - (l + 1)), ?_, ?_⟩
    · rw [hex, assoc_get_range'_map _ 1 (nn.num_layers - 1) (l + 1)
        (by omega) (by omega)]
    · rw [hex, assoc_get_range'_map _ 1 (nn.num_layers - 1) l (by omega) (by omega)]
      have e1 : nn.num_layers - 1 - l = (nn.num_layers - 1 - (l + 1)) + 1 := by omega
      rw [e1]
      simp only [delta_chain]
      have e2 : nn.num_layers - 1 - (nn.num_layers - 1 - (l + 1) + 1) = l := by omega
      rw [e2]
      simp only [err_non_last_layer, sigmoid_prime_vector]

/-- Witness for C1 on the concrete three-layer network. -/
theorem c1_backprop_witness :
    2 ≤ nn111.num_layers ∧
    ((nn111.backprop (fun q => q) [0] (List.replicate 3 FFIdefault)).map Prod.fst =
      List.range' 1 (nn111.num_layers - 1)) := by
  refine ⟨by decide, ?_⟩
  exact (c1_backprop (fun q => q) nn111 [0] (List.replicate 3 FFIdefault) (by decide)).1

/-- The gradients map in explicit form: each layer `1 ≤ l ≤ L-1` (in
ascending order) paired with its `layer_gradient`. -/
theorem compute_gradients_explicit (nn : SimpleNeuralNetwork)
    (per_tr_ex_data : List (List FeedForwardIntermediates × List (ℕ × ColumnVector))) :
    nn.compute_gradients per_tr_ex_data =
      (List.range' 1 (nn.num_layers - 1)).map
        (fun l => (l, layer_gradient nn per_tr_ex_data l)) := by
  unfold SimpleNeuralNetwork.compute_gradients
  have main : ∀ (m : ℕ) (acc : List (ℕ × (Matrix × ColumnVector))),
      ((List.range' 1 m).reverse).foldl
          (fun gradients l => (l, layer_gradient nn per_tr_ex_data l) :: gradients) acc =
        ((List.range' 1 m).map (fun l => (l, layer_gradient nn per_tr_ex_data l))) ++ acc := by
    intro m
    induction m with
    | zero => intro acc; simp
    | succ m ih =>
      intro acc
      have hconcat : List.range' 1 (m + 1) = List.range' 1 m ++ [1 + m] := by
        simpa using @List.range'_concat 1 1 m
      rw [hconcat, List.reverse_append, List.map_append]
      simp only [List.reverse_cons, List.reverse_nil, List.nil_append,
        List.singleton_append, List.foldl_cons, List.map_cons, List.map_nil]
      rw [ih]
      simp [List.append_assoc]
  simpa using main (nn.num_layers - 1) []

theorem foldl_pair_split {α M V : Type} (f : M → α → M) (g : V → α → V) :
    ∀ (data : List α) (m0 : M) (v0 : V),
      data.foldl (fun acc p => (f acc.1 p, g acc.2 p)) (m0, v0) =
        (data.foldl f m0, data.foldl g v0) := by
  intro data
  induction data with
  | nil => intro m0 v0; rfl
  | cons x xs ih => intro m0 v0; simp only [List.foldl_cons]; exact ih _ _

/-- C2: for a non-empty batch, the gradients map pairs each layer
`1 ≤ l ≤ L-1` with the sum, over every example of the entire supplied
batch, of the outer product `delta_l * a_{l-1}^T` (weight part) and of
`delta_l` (bias part), each divided by the batch size; no subset of the
batch is used. -/
theorem c2_compute_gradients (nn : SimpleNeuralNetwork)
    (per_tr_ex_data : List (List FeedForwardIntermediates × List (ℕ × ColumnVector)))
    (hne : 0 < per_tr_ex_data.length) (l : ℕ) (h1 : 1 ≤ l)
    (hl : l ≤ nn.num_layers - 1) :
    assoc_get (nn.compute_gradients per_tr_ex_data) l =
      some
        (((per_tr_ex_data.map (fun p =>
              ColumnVector.mult_matrix ((assoc_get p.2 l).getD [])
                ((p.1.getD (l - 1) FFIdefault).activations_vector))).foldl Matrix.add
            (Matrix.new_zero_matrix (nn.sizes.getD l 0)
              (nn.sizes.getD (l - 1) 0))).divide_by_scalar (per_tr_ex_data.length : ℚ),
         ((per_tr_ex_data.map (fun p => (assoc_get p.2 l).getD [])).foldl
            ColumnVector.add
            (ColumnVector.new_zero_vector (nn.sizes.getD l 0))).divide_by_scalar
          (per_tr_ex_data.length : ℚ)) := by
  rw [compute_gradients_explicit,
    assoc_get_range'_map _ 1 (nn.num_layers - 1) l (by omega) (by omega)]
  congr 1
  simp only [layer_gradient]
  rw [foldl_pair_split
    (fun (macc : Matrix)
         (p : List FeedForwardIntermediates × List (ℕ × ColumnVector)) =>
      macc.add (ColumnVector.mult_matrix ((assoc_get p.2 l).getD [])
        ((p.1.getD (l - 1) FFIdefault).activations_vector)))
    (fun (vacc : ColumnVector)
         (p : List FeedForwardIntermediates × List (ℕ × ColumnVector)) =>
      ColumnVector.add vacc ((assoc_get p.2 l).getD []))]
  rw [List.foldl_map, List.foldl_map]

/-- Witness for C2 on a concrete singleton batch. -/
theorem c2_compute_gradients_witness :
    0 < ([([FFIdefault, FFIdefault, FFIdefault], [(1, ([0] : ColumnVector)), (2, [0])])] :
        List (List FeedForwardIntermediates × List (ℕ × ColumnVector))).length ∧
    (1 : ℕ) ≤ 1 ∧
    1 ≤ nn111.num_layers - 1 ∧
    assoc_get (nn111.compute_gradients
        [([FFIdefault, FFIdefault, FFIdefault], [(1, [0]), (2, [0])])]) 1 =
      some
        ((([([FFIdefault, FFIdefault, FFIdefault],
              [(1, ([0] : ColumnVector)), (2, [0])])].map (fun p =>
              ColumnVector.mult_matrix ((assoc_get p.2 1).getD [])
                ((p.1.getD 0 FFIdefault).activations_vector))).foldl Matrix.add
            (Matrix.new_zero_matrix (nn111.sizes.getD 1 0)
              (nn111.sizes.getD 0 0))).divide_by_scalar 1,
         (([([FFIdefault, FFIdefault, FFIdefault],
              [(1, ([0] : ColumnVector)), (2, [0])])].map (fun p =>
              (assoc_get p.2 1).getD [])).foldl ColumnVector.add
            (ColumnVector.new_zero_vector (nn111.sizes.getD 1 0))).divide_by_scalar 1) := by
  refine ⟨by decide, by decide, by decide, ?_⟩
  exact c2_compute_gradients nn111
    [([FFIdefault, FFIdefault, FFIdefault], [(1, [0]), (2, [0])])]
    (by decide) 1 (by decide) (by decide)

/-- The reshape walk inverts the unroll concatenation: starting at layer
`i+1` on the unrolled suffix from step `i`, it recovers each layer's
weight matrix and bias vector exactly. -/
theorem reshape_walk_unroll (nn : SimpleNeuralNetwork) (hwf : Wellformed nn) :
    ∀ (n i : ℕ), n = nn.sizes.length - 1 - i →
      reshape_walk nn.sizes (List.range' (i + 1) n)
          (((nn.steps.drop i).map (fun wb => wb.1.data ++ wb.2)).flatten) =
        (List.range' (i + 1) n).map
          (fun l => (l, (nn.weights.getD (l - 1) Mdefault, nn.biases.getD (l - 1) []))) := by
  intro n
  induction n with
  | zero => intro i _; rfl
  | succ n ih =>
    intro i hn
    have hi : i < nn.sizes.length - 1 := by omega
    have hw := hwf.2.2 i hi
    rw [List.range'_succ (i + 1) n 1, steps_drop_cons nn hwf i hi]
    simp only [List.map_cons, List.flatten_cons, reshape_walk, List.append_assoc]
    have hsub : i + 1 - 1 = i := by omega
    rw [hsub]
    rw [List.take_left' (by rw [hw.2.2.1])]
    rw [List.drop_left' (by rw [hw.2.2.1])]
    rw [List.take_left' (by rw [hw.2.2.2])]
    rw [List.drop_left' (by rw [hw.2.2.2])]
    rw [ih (i + 1) (by omega)]
    congr 2
    rw [← hw.1, ← hw.2.1]

/-- Unroll-then-reshape recovers the layer map of the original weight
matrices and bias vectors. -/
theorem reshape_unroll (nn : SimpleNeuralNetwork) (hwf : Wellformed nn) :
    nn.reshape_weights_and_biases nn.unroll_weights_and_biases =
      (List.range' 1 (nn.num_layers - 1)).map
        (fun l => (l, (nn.weights.getD (l - 1) Mdefault, nn.biases.getD (l - 1) []))) := by
  unfold SimpleNeuralNetwork.reshape_weights_and_biases
    SimpleNeuralNetwork.unroll_weights_and_biases
  have h0 : nn.steps = nn.steps.drop 0 := rfl
  rw [h0]
  exact reshape_walk_unroll nn hwf (nn.num_layers - 1) 0 (by rfl)

/-- The `ff` walk over the reshaped map computes the same activations as
`feed_forward` over the network's own weights and biases. -/
theorem ff_walk_eq_feed_forward_steps (sg : ℚ → ℚ) (nn : SimpleNeuralNetwork)
    (hwf : Wellformed nn) :
    ∀ (n i : ℕ) (a : ColumnVector), n = nn.sizes.length - 1 - i →
      ff_walk sg (nn.reshape_weights_and_biases nn.unroll_weights_and_biases)
          (List.range' (i + 1) n) a =
        feed_forward_steps sg (nn.steps.drop i) a := by
  intro n
  induction n with
  | zero =>
    intro i a hn
    rw [drop_steps_nil nn hwf i (by omega)]
    rfl
  | succ n ih =>
    intro i a hn
    have hi : i < nn.sizes.length - 1 := by omega
    rw [List.range'_succ (i + 1) n 1, steps_drop_cons nn hwf i hi]
    simp only [ff_walk, feed_forward_steps]
    have hp : assoc_get (nn.reshape_weights_and_biases nn.unroll_weights_and_biases)
        (i + 1) = some (nn.weights.getD i Mdefault, nn.biases.getD i []) := by
      rw [reshape_unroll nn hwf,
        assoc_get_range'_map _ 1 (nn.num_layers - 1) (i + 1) (by omega)
          (by unfold SimpleNeuralNetwork.num_layers; omega)]
      have hsub : i + 1 - 1 = i := by omega
      rw [hsub]
    rw [hp]
    simp only [Option.getD_some]
    exact ih (i + 1) _ (by omega)

/-- C3: reshaping the unrolled parameter vector with the same layer sizes
is an exact inverse of unrolling — every layer's weight matrix (row-major
data, shape included) and bias vector is recovered element-for-element —
and feeding forward through the reshaped representation agrees with
`feed_forward` on the original network for every input. -/
theorem c3_unroll_reshape_roundtrip (sg : ℚ → ℚ) (nn : SimpleNeuralNetwork)
    (hwf : Wellformed nn) :
    (∀ l, 1 ≤ l → l ≤ nn.num_layers - 1 →
      assoc_get (nn.reshape_weights_and_biases nn.unroll_weights_and_biases) l =
        some (nn.weights.getD (l - 1) Mdefault, nn.biases.getD (l - 1) [])) ∧
    (∀ input_v : ColumnVector,
      SimpleNeuralNetwork.ff sg input_v nn.sizes
          (nn.reshape_weights_and_biases nn.unroll_weights_and_biases) =
        nn.feed_forward sg input_v) := by
  constructor
  · intro l h1 hl
    rw [reshape_unroll nn hwf,
      assoc_get_range'_map _ 1 (nn.num_layers - 1) l (by omega) (by omega)]
  · intro input_v
    unfold SimpleNeuralNetwork.ff SimpleNeuralNetwork.feed_forward
    have h0 : nn.steps = nn.steps.drop 0 := rfl
    rw [h0]
    exact ff_walk_eq_feed_forward_steps sg nn hwf (nn.sizes.length - 1) 0 input_v rfl

/-- Witness for C3 on the concrete three-layer network. -/
theorem c3_unroll_reshape_roundtrip_witness :
    Wellformed nn111 ∧
    (∀ input_v : ColumnVector,
      SimpleNeuralNetwork.ff (fun q => q) input_v nn111.sizes
          (nn111.reshape_weights_and_biases nn111.unroll_weights_and_biases) =
        nn111.feed_forward (fun q => q) input_v) := by
  refine ⟨by decide, ?_⟩
  exact (c3_unroll_reshape_roundtrip (fun q => q) nn111 (by decide)).2

theorem getD_set_self {α : Type} (l : List α) (i : ℕ) (x d : α) (h : i < l.length) :
    (l.set i x).getD i d = x := by
  rw [List.getD_eq_getElem _ d (by simpa using h)]
  simp

theorem getD_set_ne {α : Type} (l : List α) (i j : ℕ) (x d : α) (h : i ≠ j) :
    (l.set i x).getD j d = l.getD j d := by
  simp [List.getD, List.getElem?_set_ne h]

/-- The in-place update fold over an explicit layer-indexed gradients map:
every layer index in range gets its own subtraction applied once, every
other index is untouched, and the sizes and sequence lengths are
preserved. -/
theorem update_explicit (lr : ℚ) (f : ℕ → Matrix × ColumnVector) :
    ∀ (n s : ℕ) (nn0 : SimpleNeuralNetwork), 1 ≤ s →
      (nn0.update_weights_and_biases
          ((List.range' s n).map (fun l => (l, f l))) lr).sizes = nn0.sizes ∧
      (nn0.update_weights_and_biases
          ((List.range' s n).map (fun l => (l, f l))) lr).weights.length =
        nn0.weights.length ∧
      (nn0.update_weights_and_biases
          ((List.range' s n).map (fun l => (l, f l))) lr).biases.length =
        nn0.biases.length ∧
      (∀ j, (j + 1 < s ∨ s + n ≤ j + 1) →
        (nn0.update_weights_and_biases
            ((List.range' s n).map (fun l => (l, f l))) lr).weights.getD j Mdefault =
          nn0.weights.getD j Mdefault ∧
        (nn0.update_weights_and_biases
            ((List.range' s n).map (fun l => (l, f l))) lr).biases.getD j [] =
          nn0.biases.getD j []) ∧
      (∀ j, s ≤ j + 1 → j + 1 < s + n → j < nn0.weights.length → j < nn0.biases.length →
        (nn0.update_weights_and_biases
            ((List.range' s n).map (fun l => (l, f l))) lr).weights.getD j Mdefault =
          (nn0.weights.getD j Mdefault).subtract ((f (j + 1)).1.multiply_by_scalar lr) ∧
        (nn0.update_weights_and_biases
            ((List.range' s n).map (fun l => (l, f l))) lr).biases.getD j [] =
          ColumnVector.minus (nn0.biases.getD j []) ((f (j + 1)).2.multiply_by_scalar lr)) := by
  intro n
  induction n with
  | zero =>
    intro s nn0 hs
    refine ⟨rfl, rfl, rfl, fun j _ => ⟨rfl, rfl⟩, fun j _ hj _ _ => by omega⟩
  | succ n ih =>
    intro s nn0 hs
    rw [List.range'_succ s n 1, List.map_cons]
    simp only [SimpleNeuralNetwork.update_weights_and_biases, List.foldl_cons]
    set nn1 : SimpleNeuralNetwork :=
      { nn0 with
        weights := nn0.weights.set (s - 1)
          ((nn0.weights.getD (s - 1) Mdefault).subtract ((f s).1.multiply_by_scalar lr))
        biases := nn0.biases.set (s - 1)
          (ColumnVector.minus (nn0.biases.getD (s - 1) []) ((f s).2.multiply_by_scalar lr)) }
      with hnn1
    have hrec := ih (s + 1) nn1 (by omega)
    unfold SimpleNeuralNetwork.update_weights_and_biases at hrec
    have hw1 : nn1.weights.length = nn0.weights.length := by
      rw [hnn1]; simp
    have hb1 : nn1.biases.length = nn0.biases.length := by
      rw [hnn1]; simp
    refine ⟨?_, ?_, ?_, ?_, ?_⟩
    · rw [hrec.1, hnn1]
    · rw [hrec.2.1, hw1]
    · rw [hrec.2.2.1, hb1]
    · intro j hj
      have hj1 : j + 1 < s + 1 ∨ s + 1 + n ≤ j + 1 := by omega
      have hq := hrec.2.2.2.1 j hj1
      refine ⟨?_, ?_⟩
      · rw [hq.1, hnn1]
        exact getD_set_ne _ _ _ _ _ (by omega)
      · rw [hq.2, hnn1]
        exact getD_set_ne _ _ _ _ _ (by omega)
    · intro j hsj hjn hjw hjb
      by_cases hhead : j + 1 = s
      · have hj1 : j + 1 < s + 1 ∨ s + 1 + n ≤ j + 1 := by omega
        have hq := hrec.2.2.2.1 j hj1
        have hjs : j = s - 1 := by omega
        refine ⟨?_, ?_⟩
        · rw [hq.1, hnn1]
          subst hjs
          rw [getD_set_self _ _ _ _ (by omega), hhead]
        · rw [hq.2, hnn1]
          subst hjs
          rw [getD_set_self _ _ _ _ (by omega), hhead]
      · have hq := hrec.2.2.2.2 j (by omega) (by omega) (by rw [hw1]; exact hjw)
          (by rw [hb1]; exact hjb)
        refine ⟨?_, ?_⟩
        · rw [hq.1, hnn1]
          rw [getD_set_ne _ _ _ _ _ (by omega)]
        · rw [hq.2, hnn1]
          rw [getD_set_ne _ _ _ _ _ (by omega)]

/-- `train_step` with all checks disabled always succeeds and returns the
once-updated network together with the untouched `prev_cost`. -/
theorem train_step_no_checks (sg sqrt : ℚ → ℚ)
    (training_data : List TrainingDataPoint) (learning_rate : ℚ)
    (nn : SimpleNeuralNetwork) (epocs_count : ℕ) (prev_cost : ℚ) :
    nn.train_step sg sqrt training_data learning_rate CheckOptions.no_checks
        epocs_count prev_cost =
      Except.ok (nn.update_weights_and_biases
        (nn.compute_gradients (nn.collect_per_tr_ex_data sg training_data))
        learning_rate, prev_cost) := by
  rfl

/-- C5: with the gradients aggregated for the epoch, the update step
scales each layer's gradient pair by the learning rate and subtracts it
in place, exactly once, from that layer's weight matrix and bias vector:
the epoch's returned network is one application of the update to the
fully aggregated gradients, and its layer-`l` parameters are the
pre-update parameters minus the scaled batch-averaged gradient. -/
theorem c5_update_step (sg sqrt : ℚ → ℚ) (training_data : List TrainingDataPoint)
    (learning_rate : ℚ) (nn : SimpleNeuralNetwork) (hwf : Wellformed nn)
    (epocs_count : ℕ) (prev_cost : ℚ) (l : ℕ) (h1 : 1 ≤ l)
    (hl : l ≤ nn.num_layers - 1) :
    ∃ gw gb,
      assoc_get (nn.compute_gradients (nn.collect_per_tr_ex_data sg training_data)) l =
        some (gw, gb) ∧
      nn.train_step sg sqrt training_data learning_rate CheckOptions.no_checks
          epocs_count prev_cost =
        Except.ok (nn.update_weights_and_biases
          (nn.compute_gradients (nn.collect_per_tr_ex_data sg training_data))
          learning_rate, prev_cost) ∧
      (nn.update_weights_and_biases
          (nn.compute_gradients (nn.collect_per_tr_ex_data sg training_data))
          learning_rate).weights.getD (l - 1) Mdefault =
        (nn.weights.getD (l - 1) Mdefault).subtract (gw.multiply_by_scalar learning_rate) ∧
      (nn.update_weights_and_biases
          (nn.compute_gradients (nn.collect_per_tr_ex_data sg training_data))
          learning_rate).biases.getD (l - 1) [] =
        ColumnVector.minus (nn.biases.getD (l - 1) [])
          (gb.multiply_by_scalar learning_rate) := by
  refine ⟨(layer_gradient nn (nn.collect_per_tr_ex_data sg training_data) l).1,
    (layer_gradient nn (nn.collect_per_tr_ex_data sg training_data) l).2, ?_, ?_, ?_, ?_⟩
  · rw [compute_gradients_explicit,
      assoc_get_range'_map _ 1 (nn.num_layers - 1) l (by omega) (by omega)]
  · exact train_step_no_checks sg sqrt training_data learning_rate nn epocs_count prev_cost
  · rw [compute_gradients_explicit]
    have h := (update_explicit learning_rate
      (layer_gradient nn (nn.collect_per_tr_ex_data sg training_data))
      (nn.num_layers - 1) 1 nn (le_refl 1)).2.2.2.2 (l - 1) (by omega)
      (by omega) (by rw [hwf.1]; unfold SimpleNeuralNetwork.num_layers at hl; omega)
      (by rw [hwf.2.1]; unfold SimpleNeuralNetwork.num_layers at hl; omega)
    have hll : l - 1 + 1 = l := by omega
    rw [hll] at h
    exact h.1
  · rw [compute_gradients_explicit]
    have h := (update_explicit learning_rate
      (layer_gradient nn (nn.collect_per_tr_ex_data sg training_data))
      (nn.num_layers - 1) 1 nn (le_refl 1)).2.2.2.2 (l - 1) (by omega)
      (by omega) (by rw [hwf.1]; unfold SimpleNeuralNetwork.num_layers at hl; omega)
      (by rw [hwf.2.1]; unfold SimpleNeuralNetwork.num_layers at hl; omega)
    have hll : l - 1 + 1 = l := by omega
    rw [hll] at h
    exact h.2

/-- Witness for C5 on the concrete three-layer network. -/
theorem c5_update_step_witness :
    Wellformed nn111 ∧ (1 : ℕ) ≤ 1 ∧ 1 ≤ nn111.num_layers - 1 ∧
    (∃ gw gb,
      assoc_get (nn111.compute_gradients
          (nn111.collect_per_tr_ex_data (fun q => q) data111)) 1 = some (gw, gb) ∧
      nn111.train_step (fun q => q) (fun q => q) data111 1 CheckOptions.no_checks 0 0 =
        Except.ok (nn111.update_weights_and_biases
          (nn111.compute_gradients (nn111.collect_per_tr_ex_data (fun q => q) data111))
          1, 0) ∧
      (nn111.update_weights_and_biases
          (nn111.compute_gradients (nn111.collect_per_tr_ex_data (fun q => q) data111))
          1).weights.getD 0 Mdefault =
        (nn111.weights.getD 0 Mdefault).subtract (gw.multiply_by_scalar 1) ∧
      (nn111.update_weights_and_biases
          (nn111.compute_gradients (nn111.collect_per_tr_ex_data (fun q => q) data111))
          1).biases.getD 0 [] =
        ColumnVector.minus (nn111.biases.getD 0 []) (gb.multiply_by_scalar 1)) := by
  refine ⟨by decide, by decide, by decide, ?_⟩
  exact c5_update_step (fun q => q) (fun q => q) data111 1 nn111 (by decide) 0 0 1
    (by decide) (by decide)

/-- With the cost-decreasing check enabled (and gradient checking off),
one epoch reduces to an `ite` on the recomputed post-update dataset cost
against the carried previous cost. -/
theorem train_step_cost_check_shape (sg sqrt : ℚ → ℚ)
    (training_data : List TrainingDataPoint) (learning_rate : ℚ)
    (nn : SimpleNeuralNetwork) (epocs_count : ℕ) (prev_cost : ℚ) :
    nn.train_step sg sqrt training_data learning_rate
        { gradient_checking := false, cost_decreasing_check := true }
        epocs_count prev_cost =
      (if (nn.update_weights_and_biases
            (nn.compute_gradients (nn.collect_per_tr_ex_data sg training_data))
            learning_rate).cost_training_set_t sg training_data > prev_cost then
        Except.error (TrainError.cost_increased prev_cost
          ((nn.update_weights_and_biases
            (nn.compute_gradients (nn.collect_per_tr_ex_data sg training_data))
            learning_rate).cost_training_set_t sg training_data) epocs_count)
      else
        Except.ok (nn.update_weights_and_biases
          (nn.compute_gradients (nn.collect_per_tr_ex_data sg training_data))
          learning_rate,
          (nn.update_weights_and_biases
            (nn.compute_gradients (nn.collect_per_tr_ex_data sg training_data))
            learning_rate).cost_training_set_t sg training_data)) := rfl

/-- C7: with the cost-decreasing check enabled, after the epoch's update
the trainer recomputes the dataset-average cost and aborts exactly when it
strictly exceeds the carried previous value, reporting the previous cost,
the new cost and the epoch index; otherwise the epoch succeeds, the new
cost becomes the stored previous value, and the loop continues into the
next epoch with it. -/
theorem c7_cost_check (sg sqrt : ℚ → ℚ) (training_data : List TrainingDataPoint)
    (learning_rate : ℚ) (nn : SimpleNeuralNetwork) (epocs_count : ℕ) (prev_cost : ℚ) :
    ((nn.update_weights_and_biases
        (nn.compute_gradients (nn.collect_per_tr_ex_data sg training_data))
        learning_rate).cost_training_set_t sg training_data > prev_cost →
      nn.train_step sg sqrt training_data learning_rate
          { gradient_checking := false, cost_decreasing_check := true }
          epocs_count prev_cost =
        Except.error (TrainError.cost_increased prev_cost
          ((nn.update_weights_and_biases
            (nn.compute_gradients (nn.collect_per_tr_ex_data sg training_data))
            learning_rate).cost_training_set_t sg training_data) epocs_count)) ∧
    (¬ (nn.update_weights_and_biases
        (nn.compute_gradients (nn.collect_per_tr_ex_data sg training_data))
        learning_rate).cost_training_set_t sg training_data > prev_cost →
      nn.train_step sg sqrt training_data learning_rate
          { gradient_checking := false, cost_decreasing_check := true }
          epocs_count prev_cost =
        Except.ok (nn.update_weights_and_biases
          (nn.compute_gradients (nn.collect_per_tr_ex_data sg training_data))
          learning_rate,
          (nn.update_weights_and_biases
            (nn.compute_gradients (nn.collect_per_tr_ex_data sg training_data))
            learning_rate).cost_training_set_t sg training_data)) ∧
    (¬ (nn.update_weights_and_biases
        (nn.compute_gradients (nn.collect_per_tr_ex_data sg training_data))
        learning_rate).cost_training_set_t sg training_data > prev_cost →
      ∀ fuel : ℕ,
        SimpleNeuralNetwork.train_loop sg sqrt training_data learning_rate
            { gradient_checking := false, cost_decreasing_check := true }
            (fuel + 1) nn epocs_count prev_cost =
          SimpleNeuralNetwork.train_loop sg sqrt training_data learning_rate
            { gradient_checking := false, cost_decreasing_check := true }
            fuel
            (nn.update_weights_and_biases
              (nn.compute_gradients (nn.collect_per_tr_ex_data sg training_data))
              learning_rate)
            (epocs_count + 1)
            ((nn.update_weights_and_biases
              (nn.compute_gradients (nn.collect_per_tr_ex_data sg training_data))
              learning_rate).cost_training_set_t sg training_data)) := by
  refine ⟨?_, ?_, ?_⟩
  · intro h
    rw [train_step_cost_check_shape, if_pos h]
  · intro h
    rw [train_step_cost_check_shape, if_neg h]
  · intro h fuel
    show (match nn.train_step sg sqrt training_data learning_rate
        { gradient_checking := false, cost_decreasing_check := true }
        epocs_count prev_cost with
      | Except.error e => Except.error e
      | Except.ok (nn2, p2) =>
        SimpleNeuralNetwork.train_loop sg sqrt training_data learning_rate
          { gradient_checking := false, cost_decreasing_check := true } fuel nn2
          (epocs_count + 1) p2) = _
    rw [train_step_cost_check_shape, if_neg h]

/-- Witness for C7: a concrete epoch whose recomputed cost does not
increase stores it and succeeds. -/
theorem c7_cost_check_witness :
    ¬ (nn111.update_weights_and_biases
        (nn111.compute_gradients (nn111.collect_per_tr_ex_data (fun q => q) []))
        1).cost_training_set_t (fun q => q) [] > 0 ∧
    nn111.train_step (fun q => q) (fun q => q) [] 1
        { gradient_checking := false, cost_decreasing_check := true } 0 0 =
      Except.ok (nn111.update_weights_and_biases
        (nn111.compute_gradients (nn111.collect_per_tr_ex_data (fun q => q) [])) 1,
        (nn111.update_weights_and_biases
          (nn111.compute_gradients (nn111.collect_per_tr_ex_data (fun q => q) []))
          1).cost_training_set_t (fun q => q) []) := by
  have hc : (nn111.update_weights_and_biases
      (nn111.compute_gradients (nn111.collect_per_tr_ex_data (fun q => q) []))
      1).cost_training_set_t (fun q => q) [] = 0 := by
    simp [SimpleNeuralNetwork.cost_training_set_t]
  refine ⟨by rw [hc]; norm_num, ?_⟩
  exact (c7_cost_check (fun q => q) (fun q => q) [] 1 nn111 0 0).2.1
    (by rw [hc]; norm_num)

theorem getD_range_map {α : Type} (f : ℕ → α) (n i : ℕ) (d : α) (h : i < n) :
    ((List.range n).map f).getD i d = f i := by
  rw [List.getD_eq_getElem _ _ (by simpa using h)]
  simp

/-- C4: when gradient checking is enabled, each index of the numerical
gradient is the central difference quotient (cost at theta with the i-th
entry nudged up by 1e-4, minus cost with it nudged down by 1e-4, over
2e-4) evaluated on the pristine parameter vector (the entry is restored —
every other index reads the unperturbed value); training then fails if
the Euclidean distance d between approximate and analytic gradients
exceeds (1e-4)^2, fails likewise if the normalized distance
d / (norm(approx) + norm(analytic)) exceeds (1e-4)^2, and proceeds as an
uncheck epoch when neither threshold is exceeded. -/
theorem c4_gradient_check (sg sqrt : ℚ → ℚ) (nn : SimpleNeuralNetwork)
    (training_data : List TrainingDataPoint) (learning_rate : ℚ) (cc : Bool)
    (epocs_count : ℕ) (prev_cost : ℚ) :
    (∀ i, i < nn.unroll_weights_and_biases.length →
      (nn.approximate_cost_gradient sg training_data).getD i 0 =
        (nn.cost_reshaped_set_t sg training_data
            (nn.reshape_weights_and_biases (nn.unroll_weights_and_biases.set i
              (nn.unroll_weights_and_biases.getD i 0 + 1 / 10000))) -
         nn.cost_reshaped_set_t sg training_data
            (nn.reshape_weights_and_biases (nn.unroll_weights_and_biases.set i
              (nn.unroll_weights_and_biases.getD i 0 - 1 / 10000)))) /
          (2 * (1 / 10000))) ∧
    (euclidian_distance sqrt (nn.approximate_cost_gradient sg training_data)
        (nn.unroll_gradients
          (nn.compute_gradients (nn.collect_per_tr_ex_data sg training_data))) >
        (1 / 10000 : ℚ) ^ 2 →
      nn.train_step sg sqrt training_data learning_rate
          { gradient_checking := true, cost_decreasing_check := cc }
          epocs_count prev_cost =
        Except.error TrainError.failed_gradient_check) ∧
    (¬ euclidian_distance sqrt (nn.approximate_cost_gradient sg training_data)
        (nn.unroll_gradients
          (nn.compute_gradients (nn.collect_per_tr_ex_data sg training_data))) >
        (1 / 10000 : ℚ) ^ 2 →
      euclidian_distance sqrt (nn.approximate_cost_gradient sg training_data)
          (nn.unroll_gradients
            (nn.compute_gradients (nn.collect_per_tr_ex_data sg training_data))) /
        (euclidian_length sqrt (nn.approximate_cost_gradient sg training_data) +
         euclidian_length sqrt (nn.unroll_gradients
           (nn.compute_gradients (nn.collect_per_tr_ex_data sg training_data)))) >
        (1 / 10000 : ℚ) ^ 2 →
      nn.train_step sg sqrt training_data learning_rate
          { gradient_checking := true, cost_decreasing_check := cc }
          epocs_count prev_cost =
        Except.error TrainError.failed_gradient_check) ∧
    (¬ euclidian_distance sqrt (nn.approximate_cost_gradient sg training_data)
        (nn.unroll_gradients
          (nn.compute_gradients (nn.collect_per_tr_ex_data sg training_data))) >
        (1 / 10000 : ℚ) ^ 2 →
      ¬ euclidian_distance sqrt (nn.approximate_cost_gradient sg training_data)
          (nn.unroll_gradients
            (nn.compute_gradients (nn.collect_per_tr_ex_data sg training_data))) /
        (euclidian_length sqrt (nn.approximate_cost_gradient sg training_data) +
         euclidian_length sqrt (nn.unroll_gradients
           (nn.compute_gradients (nn.collect_per_tr_ex_data sg training_data)))) >
        (1 / 10000 : ℚ) ^ 2 →
      nn.train_step sg sqrt training_data learning_rate
          { gradient_checking := true, cost_decreasing_check := cc }
          epocs_count prev_cost =
        nn.train_step sg sqrt training_data learning_rate
          { gradient_checking := false, cost_decreasing_check := cc }
          epocs_count prev_cost) := by
  have heps : ((1 / 10000 : ℚ) ^ 2) = GRADIENT_CHECK_EPSILON_SQUARED := by
    norm_num [GRADIENT_CHECK_EPSILON_SQUARED, GRADIENT_CHECK_EPSILON]
  refine ⟨?_, ?_, ?_, ?_⟩
  · intro i hi
    unfold SimpleNeuralNetwork.approximate_cost_gradient
    rw [getD_range_map _ _ _ _ hi]
    simp only [GRADIENT_CHECK_EPSILON, GRADIENT_CHECK_TWICE_EPSILON]
  · intro h
    rw [heps] at h
    unfold SimpleNeuralNetwork.train_step
    simp [h]
  · intro h1 h2
    rw [heps] at h1 h2
    unfold SimpleNeuralNetwork.train_step
    simp [h1, h2]
  · intro h1 h2
    rw [heps] at h1 h2
    unfold SimpleNeuralNetwork.train_step
    simp [h1, h2]

/-- Witness for C4: at the all-zero network with an empty dataset every
distance is the square root of zero, which the zero square-root
collaborator sends to 0, so neither threshold trips and the epoch equals
the unchecked epoch. -/
theorem c4_gradient_check_witness :
    ¬ euclidian_distance (fun _ => 0)
        (nn111.approximate_cost_gradient (fun q => q) [])
        (nn111.unroll_gradients
          (nn111.compute_gradients (nn111.collect_per_tr_ex_data (fun q => q) []))) >
      (1 / 10000 : ℚ) ^ 2 ∧
    ¬ euclidian_distance (fun _ => 0)
        (nn111.approximate_cost_gradient (fun q => q) [])
        (nn111.unroll_gradients
          (nn111.compute_gradients (nn111.collect_per_tr_ex_data (fun q => q) []))) /
      (euclidian_length (fun _ => 0)
        (nn111.approximate_cost_gradient (fun q => q) []) +
       euclidian_length (fun _ => 0)
        (nn111.unroll_gradients
          (nn111.compute_gradients (nn111.collect_per_tr_ex_data (fun q => q) [])))) >
      (1 / 10000 : ℚ) ^ 2 ∧
    nn111.train_step (fun q => q) (fun _ => 0) [] 1
        { gradient_checking := true, cost_decreasing_check := false } 0 0 =
      nn111.train_step (fun q => q) (fun _ => 0) [] 1
        { gradient_checking := false, cost_decreasing_check := false } 0 0 := by
  have hd : ∀ a b : List ℚ, euclidian_distance (fun _ => (0 : ℚ)) a b = 0 := by
    intro a b; rfl
  have hnd : ¬ euclidian_distance (fun _ => (0 : ℚ))
      (nn111.approximate_cost_gradient (fun q => q) [])
      (nn111.unroll_gradients
        (nn111.compute_gradients (nn111.collect_per_tr_ex_data (fun q => q) []))) >
      (1 / 10000 : ℚ) ^ 2 := by
    rw [hd]; norm_num
  have hnn : ¬ euclidian_distance (fun _ => (0 : ℚ))
      (nn111.approximate_cost_gradient (fun q => q) [])
      (nn111.unroll_gradients
        (nn111.compute_gradients (nn111.collect_per_tr_ex_data (fun q => q) []))) /
      (euclidian_length (fun _ => (0 : ℚ))
        (nn111.approximate_cost_gradient (fun q => q) []) +
       euclidian_length (fun _ => (0 : ℚ))
        (nn111.unroll_gradients
          (nn111.compute_gradients (nn111.collect_per_tr_ex_data (fun q => q) [])))) >
      (1 / 10000 : ℚ) ^ 2 := by
    rw [hd]
    norm_num
  exact ⟨hnd, hnn,
    (c4_gradient_check (fun q => q) (fun _ => 0) nn111 [] 1 false 0 0).2.2.2 hnd hnn⟩

theorem cv_minus_length (a b : ColumnVector) :
    (ColumnVector.minus a b).length = min a.length b.length := by
  simp [ColumnVector.minus]

theorem cv_hadamard_length (a b : ColumnVector) :
    (ColumnVector.hadamard_product a b).length = min a.length b.length := by
  simp [ColumnVector.hadamard_product]

theorem cv_scale_length (a : ColumnVector) (c : ℚ) :
    (a.multiply_by_scalar c).length = a.length := by
  simp [ColumnVector.multiply_by_scalar]

theorem cv_div_length (a : ColumnVector) (c : ℚ) :
    (a.divide_by_scalar c).length = a.length := by
  simp [ColumnVector.divide_by_scalar]

theorem sigmoid_prime_vector_length (sg : ℚ → ℚ) (v : ColumnVector) :
    (sigmoid_prime_vector sg v).length = v.length := by
  simp [sigmoid_prime_vector]

theorem transpose_shape (m : Matrix) :
    m.transpose.rows = m.columns ∧ m.transpose.columns = m.rows := ⟨rfl, rfl⟩

theorem mat_add_shape (m other : Matrix) :
    (m.add other).rows = m.rows ∧ (m.add other).columns = m.columns ∧
    (m.add other).data.length = min m.data.length other.data.length := by
  refine ⟨rfl, rfl, ?_⟩
  simp [Matrix.add]

theorem mat_subtract_shape (m other : Matrix) :
    (m.subtract other).rows = m.rows ∧ (m.subtract other).columns = m.columns ∧
    (m.subtract other).data.length = min m.data.length other.data.length := by
  refine ⟨rfl, rfl, ?_⟩
  simp [Matrix.subtract]

theorem mat_scale_shape (m : Matrix) (c : ℚ) :
    (m.multiply_by_scalar c).rows = m.rows ∧
    (m.multiply_by_scalar c).columns = m.columns ∧
    (m.multiply_by_scalar c).data.length = m.data.length := by
  refine ⟨rfl, rfl, ?_⟩
  simp [Matrix.multiply_by_scalar]

theorem mat_div_shape (m : Matrix) (c : ℚ) :
    (m.divide_by_scalar c).rows = m.rows ∧
    (m.divide_by_scalar c).columns = m.columns ∧
    (m.divide_by_scalar c).data.length = m.data.length := by
  refine ⟨rfl, rfl, ?_⟩
  simp [Matrix.divide_by_scalar]

theorem zero_matrix_shape (r c : ℕ) :
    (Matrix.new_zero_matrix r c).rows = r ∧ (Matrix.new_zero_matrix r c).columns = c ∧
    (Matrix.new_zero_matrix r c).data.length = r * c := by
  refine ⟨rfl, rfl, ?_⟩
  simp [Matrix.new_zero_matrix]

theorem mult_matrix_shape (col row : ColumnVector) :
    (ColumnVector.mult_matrix col row).rows = col.length ∧
    (ColumnVector.mult_matrix col row).columns = row.length ∧
    (ColumnVector.mult_matrix col row).data.length = col.length * row.length := by
  refine ⟨rfl, rfl, ?_⟩
  unfold ColumnVector.mult_matrix
  induction col with
  | nil => simp
  | cons x xs ih =>
    simp only [List.map_cons, List.flatten_cons, List.length_append, List.length_map,
      List.length_cons]
    simp only [List.map_cons, List.flatten_cons, List.length_append, List.length_map] at ih
    rw [ih, Nat.succ_mul, Nat.add_comm]

theorem capture_steps_list_length (sg : ℚ → ℚ) :
    ∀ (ss : List (Matrix × ColumnVector)) (a : ColumnVector),
      (capture_steps sg ss a).length = ss.length := by
  intro ss
  induction ss with
  | nil => intro a; rfl
  | cons hd tl ih =>
    intro a
    obtain ⟨w, b⟩ := hd
    simp only [capture_steps, List.length_cons]
    rw [ih]

/-- Entry lengths of the capture suffix starting at layer `k`: entry `j`
holds the layer-`k+j+1` weighted sums and activations, both of length
`sizes[k+j+1]`, for any input activation vector. -/
theorem capture_steps_getD_length (sg : ℚ → ℚ) (nn : SimpleNeuralNetwork)
    (hwf : Wellformed nn) :
    ∀ (n k : ℕ) (a : ColumnVector) (j : ℕ), n = nn.sizes.length - 1 - k → j < n →
      ((capture_steps sg (nn.steps.drop k) a).getD j FFIdefault).z_vector.length =
        nn.sizes.getD (k + j + 1) 0 ∧
      ((capture_steps sg (nn.steps.drop k) a).getD j FFIdefault).activations_vector.length =
        nn.sizes.getD (k + j + 1) 0 := by
  intro n
  induction n with
  | zero => intro k a j _ hj; omega
  | succ n ih =>
    intro k a j hn hj
    have hk : k < nn.sizes.length - 1 := by omega
    rw [steps_drop_cons nn hwf k hk]
    simp only [capture_steps]
    cases j with
    | zero =>
      constructor
      · show (z (nn.weights.getD k Mdefault) (nn.biases.getD k []) a).length = _
        rw [wf_z_length nn hwf k hk]
      · show (sigmoid_vector sg
          (z (nn.weights.getD k Mdefault) (nn.biases.getD k []) a)).length = _
        rw [sigmoid_vector_length, wf_z_length nn hwf k hk]
    | succ j =>
      have hrec := ih (k + 1)
        (sigmoid_vector sg (z (nn.weights.getD k Mdefault) (nn.biases.getD k []) a)) j
        (by omega) (by omega)
      have hidx : k + 1 + j + 1 = k + (j + 1) + 1 := by omega
      rw [hidx] at hrec
      exact hrec

/-- Entry lengths of `feed_forward_capturing`: for `1 ≤ i ≤ L-1` the
`i`-th intermediates hold vectors of length `sizes[i]`; entry 0 holds the
raw input. -/
theorem ffc_getD_length (sg : ℚ → ℚ) (nn : SimpleNeuralNetwork) (hwf : Wellformed nn)
    (input_v : ColumnVector) (i : ℕ) (h1 : 1 ≤ i) (hi : i ≤ nn.sizes.length - 1) :
    ((nn.feed_forward_capturing sg input_v).getD i FFIdefault).z_vector.length =
      nn.sizes.getD i 0 ∧
    ((nn.feed_forward_capturing sg input_v).getD i FFIdefault).activations_vector.length =
      nn.sizes.getD i 0 := by
  unfold SimpleNeuralNetwork.feed_forward_capturing
  obtain ⟨i, rfl⟩ : ∃ j, i = j + 1 := ⟨i - 1, by omega⟩
  show ((capture_steps sg nn.steps input_v).getD i FFIdefault).z_vector.length = _ ∧ _
  have h0 : nn.steps = nn.steps.drop 0 := rfl
  rw [h0]
  have := capture_steps_getD_length sg nn hwf (nn.sizes.length - 1) 0 input_v i rfl
    (by omega)
  simpa using this

theorem ffc_getD_zero (sg : ℚ → ℚ) (nn : SimpleNeuralNetwork) (input_v : ColumnVector) :
    ((nn.feed_forward_capturing sg input_v).getD 0 FFIdefault).activations_vector =
      input_v := rfl

/-- Lengths of the backprop error vectors on captured intermediates: the
layer-`L-1-k` error vector has length `sizes[L-1-k]`, provided the
desired-output vector has the output-layer length. -/
theorem delta_chain_length (sg : ℚ → ℚ) (nn : SimpleNeuralNetwork) (hwf : Wellformed nn)
    (h2 : 2 ≤ nn.sizes.length) (input_v desired_output_v : ColumnVector)
    (hdes : desired_output_v.length = nn.sizes.getD (nn.sizes.length - 1) 0)
    (k : ℕ) (hk : k ≤ nn.sizes.length - 2) :
    (delta_chain sg nn desired_output_v (nn.feed_forward_capturing sg input_v) k).length =
      nn.sizes.getD (nn.num_layers - 1 - k) 0 := by
  cases k with
  | zero =>
    simp only [delta_chain, err_last_layer, SimpleNeuralNetwork.num_layers, Nat.sub_zero]
    rw [cv_hadamard_length, cv_minus_length, sigmoid_prime_vector_length]
    have hL := ffc_getD_length sg nn hwf input_v (nn.sizes.length - 1)
      (by omega) (by omega)
    have hL1 : ((nn.feed_forward_capturing sg input_v).getD (nn.sizes.length - 1)
        FFIdefault).z_vector.length = nn.sizes.getD (nn.sizes.length - 1) 0 := hL.1
    have hL2 : ((nn.feed_forward_capturing sg input_v).getD (nn.sizes.length - 1)
        FFIdefault).activations_vector.length =
        nn.sizes.getD (nn.sizes.length - 1) 0 := hL.2
    rw [hL1, hL2, hdes]
    simp
  | succ k =>
    simp only [delta_chain, err_non_last_layer, SimpleNeuralNetwork.num_layers,
      Nat.sub_sub]
    have hl1 : 1 ≤ nn.sizes.length - (1 + (k + 1)) := by omega
    have hlL : nn.sizes.length - (1 + (k + 1)) < nn.sizes.length - 1 := by omega
    have hz := ffc_getD_length sg nn hwf input_v (nn.sizes.length - (1 + (k + 1)))
      hl1 (by omega)
    rw [cv_hadamard_length, sigmoid_prime_vector_length, mult_vector_length, hz.1]
    have hcols : (nn.weights.getD (nn.sizes.length - (1 + (k + 1)))
          Mdefault).transpose.rows =
        nn.sizes.getD (nn.sizes.length - (1 + (k + 1))) 0 := by
      rw [(transpose_shape _).1]
      exact (hwf.2.2 (nn.sizes.length - (1 + (k + 1))) hlL).2.1
    rw [hcols]
    simp

/-- Length of the backprop error vector looked up for layer `l` on the
intermediates captured from a correctly dimensioned example. -/
theorem backprop_lookup_length (sg : ℚ → ℚ) (nn : SimpleNeuralNetwork)
    (hwf : Wellformed nn) (h2 : 2 ≤ nn.sizes.length)
    (input_v desired_output_v : ColumnVector)
    (hdes : desired_output_v.length = nn.sizes.getD (nn.sizes.length - 1) 0)
    (l : ℕ) (h1 : 1 ≤ l) (hl : l ≤ nn.sizes.length - 1) :
    ((assoc_get (nn.backprop sg desired_output_v
        (nn.feed_forward_capturing sg input_v)) l).getD []).length =
      nn.sizes.getD l 0 := by
  rw [backprop_explicit,
    assoc_get_range'_map _ 1 (nn.num_layers - 1) l (by omega)
      (by unfold SimpleNeuralNetwork.num_layers; omega),
    Option.getD_some]
  rw [delta_chain_length sg nn hwf h2 input_v desired_output_v hdes
    (nn.num_layers - 1 - l) (by unfold SimpleNeuralNetwork.num_layers; omega)]
  have he : nn.num_layers - 1 - (nn.num_layers - 1 - l) = l := by
    unfold SimpleNeuralNetwork.num_layers; omega
  rw [he]

/-- Length of the previous-layer activations read by the aggregator. -/
theorem ffc_prev_length (sg : ℚ → ℚ) (nn : SimpleNeuralNetwork) (hwf : Wellformed nn)
    (input_v : ColumnVector) (hin : input_v.length = nn.sizes.getD 0 0)
    (l : ℕ) (h1 : 1 ≤ l) (hl : l ≤ nn.sizes.length - 1) :
    ((nn.feed_forward_capturing sg input_v).getD (l - 1) FFIdefault).activations_vector.length =
      nn.sizes.getD (l - 1) 0 := by
  by_cases hl1 : l = 1
  · subst hl1
    rw [show (1 : ℕ) - 1 = 0 from rfl, ffc_getD_zero, hin]
  · exact (ffc_getD_length sg nn hwf input_v (l - 1) (by omega) (by omega)).2

/-- Shapes of the per-layer gradient aggregate on a well-dimensioned
batch: the weight part is a full `sizes[l] × sizes[l-1]` matrix and the
bias part has length `sizes[l]`. -/
theorem layer_gradient_shape (sg : ℚ → ℚ) (nn : SimpleNeuralNetwork)
    (hwf : Wellformed nn) (h2 : 2 ≤ nn.sizes.length)
    (training_data : List TrainingDataPoint)
    (hdata : DataWellformed nn training_data) (l : ℕ) (h1 : 1 ≤ l)
    (hl : l ≤ nn.sizes.length - 1) :
    (layer_gradient nn (nn.collect_per_tr_ex_data sg training_data) l).1.rows =
      nn.sizes.getD l 0 ∧
    (layer_gradient nn (nn.collect_per_tr_ex_data sg training_data) l).1.columns =
      nn.sizes.getD (l - 1) 0 ∧
    (layer_gradient nn (nn.collect_per_tr_ex_data sg training_data) l).1.data.length =
      nn.sizes.getD l 0 * nn.sizes.getD (l - 1) 0 ∧
    (layer_gradient nn (nn.collect_per_tr_ex_data sg training_data) l).2.length =
      nn.sizes.getD l 0 := by
  have main : ∀ (tds : List TrainingDataPoint), DataWellformed nn tds →
      ∀ (acc : Matrix × ColumnVector),
      acc.1.rows = nn.sizes.getD l 0 → acc.1.columns = nn.sizes.getD (l - 1) 0 →
      acc.1.data.length = nn.sizes.getD l 0 * nn.sizes.getD (l - 1) 0 →
      acc.2.length = nn.sizes.getD l 0 →
      ((nn.collect_per_tr_ex_data sg tds).foldl (fun acc p =>
        let prev_layer_activations_v := (p.1.getD (l - 1) FFIdefault).activations_vector
        let this_layer_err_v := (assoc_get p.2 l).getD []
        (acc.1.add (ColumnVector.mult_matrix this_layer_err_v prev_layer_activations_v),
         ColumnVector.add acc.2 this_layer_err_v)) acc).1.rows = nn.sizes.getD l 0 ∧
      ((nn.collect_per_tr_ex_data sg tds).foldl (fun acc p =>
        let prev_layer_activations_v := (p.1.getD (l - 1) FFIdefault).activations_vector
        let this_layer_err_v := (assoc_get p.2 l).getD []
        (acc.1.add (ColumnVector.mult_matrix this_layer_err_v prev_layer_activations_v),
         ColumnVector.add acc.2 this_layer_err_v)) acc).1.columns =
        nn.sizes.getD (l - 1) 0 ∧
      ((nn.collect_per_tr_ex_data sg tds).foldl (fun acc p =>
        let prev_layer_activations_v := (p.1.getD (l - 1) FFIdefault).activations_vector
        let this_layer_err_v := (assoc_get p.2 l).getD []
        (acc.1.add (ColumnVector.mult_matrix this_layer_err_v prev_layer_activations_v),
         ColumnVector.add acc.2 this_layer_err_v)) acc).1.data.length =
        nn.sizes.getD l 0 * nn.sizes.getD (l - 1) 0 ∧
      ((nn.collect_per_tr_ex_data sg tds).foldl (fun acc p =>
        let prev_layer_activations_v := (p.1.getD (l - 1) FFIdefault).activations_vector
        let this_layer_err_v := (assoc_get p.2 l).getD []
        (acc.1.add (ColumnVector.mult_matrix this_layer_err_v prev_layer_activations_v),
         ColumnVector.add acc.2 this_layer_err_v)) acc).2.length = nn.sizes.getD l 0 := by
    intro tds
    induction tds with
    | nil =>
      intro _ acc h1a h2a h3a h4a
      exact ⟨h1a, h2a, h3a, h4a⟩
    | cons tr tds ih =>
      intro hd acc h1a h2a h3a h4a
      have hcons : nn.collect_per_tr_ex_data sg (tr :: tds) =
          (nn.feed_forward_capturing sg tr.input_v,
            nn.backprop sg tr.desired_output_v
              (nn.feed_forward_capturing sg tr.input_v)) ::
            nn.collect_per_tr_ex_data sg tds := rfl
      rw [hcons, List.foldl_cons]
      have hdhd := hd tr (List.mem_cons_self tr tds)
      have herr : ((assoc_get (nn.backprop sg tr.desired_output_v
          (nn.feed_forward_capturing sg tr.input_v)) l).getD []).length =
          nn.sizes.getD l 0 :=
        backprop_lookup_length sg nn hwf h2 tr.input_v tr.desired_output_v hdhd.2 l h1 hl
      have haprev : ((nn.feed_forward_capturing sg tr.input_v).getD
          (l - 1) FFIdefault).activations_vector.length = nn.sizes.getD (l - 1) 0 :=
        ffc_prev_length sg nn hwf tr.input_v hdhd.1 l h1 hl
      refine ih (fun t ht => hd t (List.mem_cons_of_mem tr ht)) _ ?_ ?_ ?_ ?_
      · rw [(mat_add_shape _ _).1, h1a]
      · rw [(mat_add_shape _ _).2.1, h2a]
      · rw [(mat_add_shape _ _).2.2, h3a, (mult_matrix_shape _ _).2.2, herr, haprev]
        simp
      · rw [cv_add_length, h4a, herr]
        simp
  have hres := main training_data hdata
    (Matrix.new_zero_matrix (nn.sizes.getD l 0) (nn.sizes.getD (l - 1) 0),
     ColumnVector.new_zero_vector (nn.sizes.getD l 0))
    (zero_matrix_shape _ _).1 (zero_matrix_shape _ _).2.1 (zero_matrix_shape _ _).2.2
    (by simp [ColumnVector.new_zero_vector])
  simp only [layer_gradient]
  refine ⟨?_, ?_, ?_, ?_⟩
  · rw [(mat_div_shape _ _).1]; exact hres.1
  · rw [(mat_div_shape _ _).2.1]; exact hres.2.1
  · rw [(mat_div_shape _ _).2.2]; exact hres.2.2.1
  · rw [cv_div_length]; exact hres.2.2.2

theorem getD_range'_map {α : Type} (f : ℕ → α) (s n i : ℕ) (d : α) (h : i < n) :
    ((List.range' s n).map f).getD i d = f (s + i) := by
  rw [List.getD_eq_getElem _ _ (by simpa using h)]
  simp

/-- Construction establishes the structural invariant: `new` produces one
bias vector of length `sizes[l]` and one full `sizes[l] × sizes[l-1]`
weight matrix per layer `l = 1 .. L-1`, whatever the sampling oracle
returns. -/
theorem wf_new (sample : ℕ → ℕ → ℕ → ℚ) (sizes : List ℕ) :
    Wellformed (SimpleNeuralNetwork.new sample sizes) := by
  unfold SimpleNeuralNetwork.new Wellformed
  refine ⟨by simp, by simp, ?_⟩
  intro i hi
  simp only at hi
  have hcomm : 1 + i = i + 1 := by omega
  rw [getD_range'_map _ 1 _ i _ (by simpa using hi),
    getD_range'_map _ 1 _ i _ (by simpa using hi), hcomm]
  refine ⟨rfl, ?_, by simp, by simp⟩
  show sizes.getD (i + 1 - 1) 0 = sizes.getD i 0
  rw [show i + 1 - 1 = i from rfl]

/-- The update step preserves the structural invariant whenever each
supplied per-layer gradient pair has the layer's own shapes. -/
theorem update_preserves_wf (nn : SimpleNeuralNetwork) (hwf : Wellformed nn)
    (lr : ℚ) (f : ℕ → Matrix × ColumnVector)
    (hf : ∀ l, 1 ≤ l → l ≤ nn.sizes.length - 1 →
      (f l).1.rows = nn.sizes.getD l 0 ∧ (f l).1.columns = nn.sizes.getD (l - 1) 0 ∧
      (f l).1.data.length = nn.sizes.getD l 0 * nn.sizes.getD (l - 1) 0 ∧
      (f l).2.length = nn.sizes.getD l 0) :
    Wellformed (nn.update_weights_and_biases
      ((List.range' 1 (nn.num_layers - 1)).map (fun l => (l, f l))) lr) ∧
    (nn.update_weights_and_biases
      ((List.range' 1 (nn.num_layers - 1)).map (fun l => (l, f l))) lr).sizes =
      nn.sizes := by
  have hup := update_explicit lr f (nn.num_layers - 1) 1 nn (le_refl 1)
  unfold SimpleNeuralNetwork.num_layers at hup ⊢
  refine ⟨?_, hup.1⟩
  refine ⟨?_, ?_, ?_⟩
  · rw [hup.1, hup.2.1, hwf.1]
  · rw [hup.1, hup.2.2.1, hwf.2.1]
  · intro i hi
    rw [hup.1] at hi
    have hchanged := hup.2.2.2.2 i (by omega) (by omega)
      (by rw [hwf.1]; omega) (by rw [hwf.2.1]; omega)
    have hold := hwf.2.2 i hi
    have hfi := hf (i + 1) (by omega) (by omega)
    have hsub : i + 1 - 1 = i := by omega
    rw [hsub] at hfi
    rw [hup.1]
    refine ⟨?_, ?_, ?_, ?_⟩
    · rw [hchanged.1, (mat_subtract_shape _ _).1, hold.1]
    · rw [hchanged.1, (mat_subtract_shape _ _).2.1, hold.2.1]
    · rw [hchanged.1, (mat_subtract_shape _ _).2.2, hold.2.2.1,
        (mat_scale_shape _ _).2.2, hfi.2.2.1]
      simp
    · rw [hchanged.2, cv_minus_length, hold.2.2.2, cv_scale_length, hfi.2.2.2]
      simp

/-- One epoch's forward pass, backprop, aggregation and in-place update
leave the structural invariant and the layer sizes intact. -/
theorem epoch_preserves_wf (sg : ℚ → ℚ) (nn : SimpleNeuralNetwork)
    (hwf : Wellformed nn) (training_data : List TrainingDataPoint)
    (hdata : DataWellformed nn training_data) (lr : ℚ) :
    Wellformed (nn.update_weights_and_biases
      (nn.compute_gradients (nn.collect_per_tr_ex_data sg training_data)) lr) ∧
    (nn.update_weights_and_biases
      (nn.compute_gradients (nn.collect_per_tr_ex_data sg training_data)) lr).sizes =
      nn.sizes := by
  rw [compute_gradients_explicit]
  by_cases h2 : 2 ≤ nn.sizes.length
  · exact update_preserves_wf nn hwf lr
      (layer_gradient nn (nn.collect_per_tr_ex_data sg training_data))
      (fun l h1 hl => layer_gradient_shape sg nn hwf h2 training_data hdata l h1 hl)
  · have hz : nn.num_layers - 1 = 0 := by
      unfold SimpleNeuralNetwork.num_layers; omega
    rw [hz]
    exact ⟨hwf, rfl⟩

/-- Any successful epoch returns exactly the once-updated network. -/
theorem train_step_ok_network (sg sqrt : ℚ → ℚ)
    (training_data : List TrainingDataPoint) (learning_rate : ℚ)
    (check_options : CheckOptions) (nn : SimpleNeuralNetwork)
    (epocs_count : ℕ) (prev_cost : ℚ) (nn2 : SimpleNeuralNetwork) (p2 : ℚ)
    (h : nn.train_step sg sqrt training_data learning_rate check_options
        epocs_count prev_cost = Except.ok (nn2, p2)) :
    nn2 = nn.update_weights_and_biases
      (nn.compute_gradients (nn.collect_per_tr_ex_data sg training_data))
      learning_rate := by
  obtain ⟨gc, cdc⟩ := check_options
  cases gc with
  | false =>
    cases cdc with
    | false =>
      rw [show ({ gradient_checking := false, cost_decreasing_check := false } :
          CheckOptions) = CheckOptions.no_checks from rfl] at h
      rw [train_step_no_checks] at h
      simp only [Except.ok.injEq, Prod.mk.injEq] at h
      exact h.1.symm
    | true =>
      rw [train_step_cost_check_shape] at h
      split at h
      · simp at h
      · simp only [Except.ok.injEq, Prod.mk.injEq] at h
        exact h.1.symm
  | true =>
    by_cases hed : euclidian_distance sqrt
        (nn.approximate_cost_gradient sg training_data)
        (nn.unroll_gradients
          (nn.compute_gradients (nn.collect_per_tr_ex_data sg training_data))) >
        GRADIENT_CHECK_EPSILON_SQUARED
    · unfold SimpleNeuralNetwork.train_step at h
      simp [hed] at h
    · by_cases hnd : euclidian_distance sqrt
          (nn.approximate_cost_gradient sg training_data)
          (nn.unroll_gradients
            (nn.compute_gradients (nn.collect_per_tr_ex_data sg training_data))) /
          (euclidian_length sqrt (nn.approximate_cost_gradient sg training_data) +
           euclidian_length sqrt (nn.unroll_gradients
             (nn.compute_gradients (nn.collect_per_tr_ex_data sg training_data)))) >
          GRADIENT_CHECK_EPSILON_SQUARED
      · unfold SimpleNeuralNetwork.train_step at h
        simp [hed, hnd] at h
      · unfold SimpleNeuralNetwork.train_step at h
        simp only [hed, hnd] at h
        cases cdc with
        | false =>
          simp at h
          exact h.1.symm
        | true =>
          simp at h
          split at h
          · simp at h
          · simp only [Except.ok.injEq, Prod.mk.injEq] at h
            exact h.1.symm

theorem mapM_some_mem {α β : Type} (g : α → Option β) :
    ∀ (l : List α) (ys : List β), l.mapM g = some ys → ∀ x ∈ l, ∃ y, g x = some y := by
  intro l
  induction l with
  | nil => intro ys _ x hx; exact absurd hx (List.not_mem_nil x)
  | cons a as ih =>
    intro ys h x hx
    rw [List.mapM_cons] at h
    cases hga : g a with
    | none => rw [hga] at h; simp at h
    | some y =>
      rw [hga] at h
      cases hmas : as.mapM g with
      | none => rw [hmas] at h; simp at h
      | some ys2 =>
        rcases List.mem_cons.mp hx with hxa | hxas
        · exact ⟨y, hxa ▸ hga⟩
        · exact ih ys2 hmas x hxas

/-- A successful per-example cost implies the example is dimensioned to
the network: the input matches the input layer and the desired output
matches the output layer. -/
theorem cost_single_some_dims (sg : ℚ → ℚ) (nn : SimpleNeuralNetwork)
    (hwf : Wellformed nn) (tr_ex : TrainingDataPoint) (c : ℚ)
    (h : nn.cost_single_tr_ex sg tr_ex = some c) :
    tr_ex.input_v.length = nn.sizes.getD 0 0 ∧
    tr_ex.desired_output_v.length = nn.sizes.getD (nn.sizes.length - 1) 0 := by
  unfold SimpleNeuralNetwork.cost_single_tr_ex at h
  by_cases hin : tr_ex.input_v.length = nn.sizes.getD 0 0
  · refine ⟨hin, ?_⟩
    rw [if_neg (by simpa using hin)] at h
    by_cases hout : (nn.feed_forward sg tr_ex.input_v).length =
        tr_ex.desired_output_v.length
    · by_cases h2 : 2 ≤ nn.sizes.length
      · rw [← hout, feed_forward_length sg nn hwf h2]
      · have hws : nn.weights = [] := by
          have hlen : nn.weights.length = 0 := by rw [hwf.1]; omega
          exact List.length_eq_zero.mp hlen
        have hffi : nn.feed_forward sg tr_ex.input_v = tr_ex.input_v := by
          unfold SimpleNeuralNetwork.feed_forward SimpleNeuralNetwork.steps
          rw [hws]
          rfl
        rw [← hout, hffi, hin]
        congr 1
        omega
    · rw [if_pos (by simpa using hout)] at h
      exact absurd h (by simp)
  · rw [if_pos (by simpa using hin)] at h
    exact absurd h (by simp)

/-- Passing the boundary cost computation certifies that the whole
training set is dimensioned to the network. -/
theorem cost_training_set_some_datawf (sg : ℚ → ℚ) (nn : SimpleNeuralNetwork)
    (hwf : Wellformed nn) (training_data : List TrainingDataPoint) (c : ℚ)
    (h : nn.cost_training_set sg training_data = some c) :
    DataWellformed nn training_data := by
  unfold SimpleNeuralNetwork.cost_training_set at h
  cases hm : training_data.mapM (nn.cost_single_tr_ex sg) with
  | none => rw [hm] at h; simp at h
  | some cs =>
    intro tr htr
    obtain ⟨y, hy⟩ := mapM_some_mem _ training_data cs hm tr htr
    exact cost_single_some_dims sg nn hwf tr y hy

theorem datawf_transfer (nn nn2 : SimpleNeuralNetwork)
    (training_data : List TrainingDataPoint) (hs : nn2.sizes = nn.sizes)
    (hd : DataWellformed nn training_data) : DataWellformed nn2 training_data := by
  intro tr htr
  rw [DataWellformed] at hd
  have := hd tr htr
  rw [hs]
  exact this

/-- The epoch loop preserves the structural invariant and the sizes. -/
theorem train_loop_preserves_wf (sg sqrt : ℚ → ℚ)
    (training_data : List TrainingDataPoint) (learning_rate : ℚ)
    (check_options : CheckOptions) :
    ∀ (fuel : ℕ) (nn : SimpleNeuralNetwork) (epocs_count : ℕ) (prev_cost : ℚ)
      (nn2 : SimpleNeuralNetwork), Wellformed nn →
      DataWellformed nn training_data →
      SimpleNeuralNetwork.train_loop sg sqrt training_data learning_rate check_options
        fuel nn epocs_count prev_cost = Except.ok nn2 →
      Wellformed nn2 ∧ nn2.sizes = nn.sizes := by
  intro fuel
  induction fuel with
  | zero =>
    intro nn ec pc nn2 hwf _ h
    unfold SimpleNeuralNetwork.train_loop at h
    have : nn = nn2 := by simpa using h
    exact this ▸ ⟨hwf, rfl⟩
  | succ fuel ih =>
    intro nn ec pc nn2 hwf hdata h
    unfold SimpleNeuralNetwork.train_loop at h
    cases hstep : nn.train_step sg sqrt training_data learning_rate check_options ec pc with
    | error e => rw [hstep] at h; exact absurd h (by simp)
    | ok pair =>
      rw [hstep] at h
      obtain ⟨nnx, px⟩ := pair
      have hnnx : nnx = nn.update_weights_and_biases
          (nn.compute_gradients (nn.collect_per_tr_ex_data sg training_data))
          learning_rate :=
        train_step_ok_network sg sqrt training_data learning_rate check_options nn
          ec pc nnx px hstep
      have hep := epoch_preserves_wf sg nn hwf training_data hdata learning_rate
      have hwfx : Wellformed nnx := hnnx ▸ hep.1
      have hsx : nnx.sizes = nn.sizes := by rw [hnnx]; exact hep.2
      have hdx : DataWellformed nnx training_data :=
        datawf_transfer nn nnx training_data hsx hdata
      have hrec := ih nnx (ec + 1) px nn2 hwfx hdx h
      exact ⟨hrec.1, hrec.2.trans hsx⟩

/-- C9: the structural invariant — as many weight matrices as bias
vectors, one per non-input layer, with shapes exactly matching adjacent
layer sizes — holds after construction for any layer-size list and any
sampling oracle, is preserved (sizes included) by one full epoch
(forward pass, backprop, aggregation, in-place update), and holds for
the network returned by any successful `train` call. -/
theorem c9_invariant (sg sqrt : ℚ → ℚ) (nn : SimpleNeuralNetwork)
    (training_data : List TrainingDataPoint) (learning_rate : ℚ)
    (hwf : Wellformed nn) (hdata : DataWellformed nn training_data) :
    (∀ (sample : ℕ → ℕ → ℕ → ℚ) (sizes : List ℕ),
      Wellformed (SimpleNeuralNetwork.new sample sizes)) ∧
    (Wellformed (nn.update_weights_and_biases
        (nn.compute_gradients (nn.collect_per_tr_ex_data sg training_data))
        learning_rate) ∧
      (nn.update_weights_and_biases
        (nn.compute_gradients (nn.collect_per_tr_ex_data sg training_data))
        learning_rate).sizes = nn.sizes) ∧
    (∀ (epocs : ℕ) (check_options : Option CheckOptions)
        (nn2 : SimpleNeuralNetwork),
      nn.train sg sqrt training_data epocs learning_rate check_options =
        Except.ok nn2 →
      Wellformed nn2 ∧ nn2.sizes = nn.sizes) := by
  refine ⟨wf_new, epoch_preserves_wf sg nn hwf training_data hdata learning_rate, ?_⟩
  intro epocs check_options nn2 h
  unfold SimpleNeuralNetwork.train at h
  cases hc : nn.cost_training_set sg training_data with
  | none => rw [hc] at h; exact absurd h (by simp)
  | some c0 =>
    rw [hc] at h
    exact train_loop_preserves_wf sg sqrt training_data learning_rate
      (check_options.getD CheckOptions.no_checks) epocs nn 0 c0 nn2 hwf hdata h

/-- Witness for C9 on the concrete three-layer network and its matching
training set. -/
theorem c9_invariant_witness :
    Wellformed nn111 ∧ DataWellformed nn111 data111 ∧
    (∀ (sample : ℕ → ℕ → ℕ → ℚ) (sizes : List ℕ),
      Wellformed (SimpleNeuralNetwork.new sample sizes)) ∧
    Wellformed (nn111.update_weights_and_biases
      (nn111.compute_gradients (nn111.collect_per_tr_ex_data (fun q => q) data111))
      1) := by
  refine ⟨by decide, by decide, ?_, ?_⟩
  · exact (c9_invariant (fun q => q) (fun q => q) nn111 data111 1 (by decide)
      (by decide)).1
  · exact (c9_invariant (fun q => q) (fun q => q) nn111 data111 1 (by decide)
      (by decide)).2.1.1

end Test6
